import Mathlib

/-!
Verification of the MdToExcel converter (`src/MdToExcel/md_to_excel.py`).

The development shallowly embeds the two core components of the script:

* `parse_markdown` — the line-oriented Markdown block parser
  (`MdToExcelConverter.parse_markdown`, lines 96–307 of the source), and
* `create_excel` — the layout engine that walks the parsed sections and
  emits cell writes, column widths and row heights
  (`MdToExcelConverter.create_excel`, lines 351–521), together with the
  column-width heuristic `_get_column_width` (lines 309–349).

Strings are modelled as `List Char` (Python `str`), Python floats as `ℚ`
(all arithmetic performed by the source on widths and heights is exact
decimal arithmetic well within double precision, so `ℚ` is faithful for
every comparison appearing below), and the spreadsheet writer collaborator
as an explicit instruction trace.
-/

set_option allowUnsafeReducibility true
attribute [local semireducible] Rat.add Rat.mul Rat.sub Rat.div Rat.inv

namespace MdToExcel

/-- Python whitespace (`str.isspace`, `str.strip()` and the `\s` class of
the `re` module on `str` all use the Unicode whitespace set). -/
def pyIsSpace (c : Char) : Bool :=
  let n := c.toNat
  (n == 0x20) || (n == 0x09) || (n == 0x0a) || (n == 0x0b) || (n == 0x0c) ||
  (n == 0x0d) || decide (0x1c ≤ n ∧ n ≤ 0x1f) || (n == 0x85) || (n == 0xa0) ||
  (n == 0x1680) || decide (0x2000 ≤ n ∧ n ≤ 0x200a) || (n == 0x2028) ||
  (n == 0x2029) || (n == 0x202f) || (n == 0x205f) || (n == 0x3000)

/-- Python `line.rstrip()`: drop all trailing whitespace. -/
def rstrip (cs : List Char) : List Char :=
  (cs.reverse.dropWhile pyIsSpace).reverse

/-- Python `s.lstrip()` (used only as the first half of `strip`). -/
def lstrip (cs : List Char) : List Char :=
  cs.dropWhile pyIsSpace

/-- Python `s.strip()`: drop whitespace at both ends. -/
def stripWs (cs : List Char) : List Char :=
  rstrip (lstrip cs)

/-- Python truthiness of `line.strip()`: the line has a non-whitespace char. -/
def hasContent (cs : List Char) : Bool :=
  cs.any (fun c => !(pyIsSpace c))

/-- The first character of `cs` is whitespace (used to render a mandatory
`\s+` after a literal in the source's regexes). -/
def headIsSpace (cs : List Char) : Bool :=
  match cs.head? with
  | some c => pyIsSpace c
  | none => false

/-- `re.match(r'^(#{1,6})\s+(.+)$', line)` on a right-stripped line
(source line 142).  The regex matches iff the maximal run of leading `#`
has length 1–6, is followed by at least one whitespace character, and a
non-whitespace remainder follows the whitespace run; since `.` does not
match a newline and the line is right-stripped, the remainder (= group 2,
taken after the greedy `\s+`) must also be newline-free.  Returns
`(level, heading text)` as the source computes them (lines 165–166). -/
def headingMatch (line : List Char) : Option (Nat × List Char) :=
  let hashes := line.takeWhile (fun c => c == '#')
  let rest := line.dropWhile (fun c => c == '#')
  let body := rest.dropWhile pyIsSpace
  if 1 ≤ hashes.length ∧ hashes.length ≤ 6 ∧ headIsSpace rest = true ∧
      body ≠ [] ∧ body.contains '\n' = false
  then some (hashes.length, body)
  else none

/-- `line.startswith('|') and line.endswith('|')` (source line 181). -/
def isTableLine (line : List Char) : Bool :=
  match line.head?, line.getLast? with
  | some a, some b => (a == '|') && (b == '|')
  | _, _ => false

/-- Python `s.strip('|')`: drop all leading and trailing `'|'` characters. -/
def stripPipes (cs : List Char) : List Char :=
  ((cs.dropWhile (fun c => c == '|')).reverse.dropWhile (fun c => c == '|')).reverse

/-- Python `s.split(sep)` for a one-character separator: keeps empty
pieces and always yields at least one piece. -/
def splitOnChar (sep : Char) : List Char → List (List Char)
  | [] => [[]]
  | c :: rest =>
    match splitOnChar sep rest with
    | [] => [[]]
    | p :: ps => if c = sep then [] :: p :: ps else (c :: p) :: ps

/-- The cell list of a table line:
`[cell.strip() for cell in line.strip('|').split('|')]` (source line 201). -/
def splitCells (line : List Char) : List (List Char) :=
  ((splitOnChar '|' (stripPipes line)).map stripWs)

/-- `re.match(r'^[-:\s]+$', cell)` (source line 204): the cell is nonempty
and consists only of `-`, `:` and whitespace. -/
def isSeparatorCell (cs : List Char) : Bool :=
  (!cs.isEmpty) && cs.all (fun c => (c == '-') || (c == ':') || pyIsSpace c)

/-- Horizontal alignment hints captured from a separator row. -/
inductive Align where
  | left
  | center
  | right
deriving DecidableEq, Repr

/-- Alignment token of one separator cell (source lines 208–213):
`:---:` → center, `---:` → right, otherwise left. -/
def alignOfCell (cs : List Char) : Align :=
  if cs.head? = some ':' ∧ cs.getLast? = some ':' then .center
  else if cs.getLast? = some ':' then .right
  else .left

/-- `re.match(r'^(\s*)[-*+]\s+(.+)$', line)` on a right-stripped line
(source line 236).  Group 1 is the maximal leading whitespace run (its
length is the indent), then a bullet character, at least one whitespace
character, and a nonempty newline-free remainder (group 2, after the
greedy `\s+`). -/
def listMatch (line : List Char) : Option (Nat × List Char) :=
  let ind := line.takeWhile pyIsSpace
  let rest := line.dropWhile pyIsSpace
  match rest with
  | [] => none
  | c :: rest2 =>
    let body := rest2.dropWhile pyIsSpace
    if (c = '-' ∨ c = '*' ∨ c = '+') ∧ headIsSpace rest2 = true ∧
        body ≠ [] ∧ body.contains '\n' = false
    then some (ind.length, body)
    else none

/-- `re.match(r'^\s*[-*+]', line)` (source line 256): optional whitespace
then a bullet character.  This is the pattern the parser uses to decide
whether an open list *continues*; it is weaker than `listMatch`. -/
def bulletStartMatch (line : List Char) : Bool :=
  match line.dropWhile pyIsSpace with
  | c :: _ => (c == '-') || (c == '*') || (c == '+')
  | [] => false

/-- One structural block of a section, tagged with its kind.  The `blocks`
field of `Sect` records, purely observationally, the order in which the
source flushes blocks into the section's three separate lists; it exists
so that document-order properties can be stated, and projects exactly onto
the three lists (see `Sect.addPara` / `addList` / `addTable`, the only
places any of the four fields is extended). -/
inductive Block where
  | para (text : List Char)
  | list (items : List (Nat × List Char))
  | table (rows : List (List (List Char)))
deriving DecidableEq, Repr

/-- A parsed section: the dict created at source lines 168–174.
`paragraphs`, `lists` and `tables` are the dict's three collections;
`blocks` is the observational flush-order trace described at `Block`. -/
structure Sect where
  heading : List Char
  level : Nat
  paragraphs : List (List Char)
  lists : List (List (Nat × List Char))
  tables : List (List (List (List Char)))
  blocks : List Block
deriving DecidableEq, Repr

/-- `current_section['paragraphs'].append(p)`. -/
def Sect.addPara (s : Sect) (p : List Char) : Sect :=
  { s with paragraphs := s.paragraphs ++ [p], blocks := s.blocks ++ [.para p] }

/-- `current_section['lists'].append(l)`. -/
def Sect.addList (s : Sect) (l : List (Nat × List Char)) : Sect :=
  { s with lists := s.lists ++ [l], blocks := s.blocks ++ [.list l] }

/-- `current_section['tables'].append(t)`. -/
def Sect.addTable (s : Sect) (t : List (List (List Char))) : Sect :=
  { s with tables := s.tables ++ [t], blocks := s.blocks ++ [.table t] }

/-- `'\n'.join(paragraph_lines)` (source line 147). -/
def joinNl : List (List Char) → List Char
  | [] => []
  | [l] => l
  | l :: ls => l ++ '\n' :: joinNl ls

/-- The parser's mutable pass state (source lines 130–136).  Python keeps
the current section as a reference into `self.sections`; here `done` holds
the earlier (no longer mutated) sections and `current` the section still
being built, so the document is `done ++ current.toList` and the current
section's document index is `done.length`.  `tableAligns` models
`self.table_alignments`, a dict keyed by `(id(section), table index)`;
section identity is rendered as the creation index, and dict assignment as
prepending (lookup finds the most recent binding).  The dead local
`current_heading_level` (only ever written) is omitted. -/
structure PState where
  done : List Sect
  current : Option Sect
  inTable : Bool
  curTable : List (List (List Char))
  paraLines : List (List Char)
  inList : Bool
  curList : List (Nat × List Char)
  tableAligns : List ((Nat × Nat) × List Align)
deriving Repr

/-- Paragraph flush used by the heading / table-row / list-item / blank
branches (e.g. source lines 145–148): the reset happens inside the
`if paragraph_lines:` guard, and the append only if a current section
exists. -/
def flushPara (st : PState) : PState :=
  if st.paraLines ≠ [] then
    { st with
      current := match st.current with
        | some s => some (s.addPara (joinNl st.paraLines))
        | none => none,
      paraLines := [] }
  else st

/-- List flush used by the heading / table-row / blank branches (source
lines 151–155): guard `in_list and current_list`, append only if a current
section exists, reset inside the guard. -/
def flushListG (st : PState) : PState :=
  if st.inList = true ∧ st.curList ≠ [] then
    { st with
      current := match st.current with
        | some s => some (s.addList st.curList)
        | none => none,
      curList := [], inList := false }
  else st

/-- List flush of the list-termination branch (source lines 256–260):
append guarded by `current_section and current_list`, reset unconditional. -/
def flushListT (st : PState) : PState :=
  { st with
    current := match st.current with
      | some s => if st.curList ≠ [] then some (s.addList st.curList) else some s
      | none => none,
    curList := [], inList := false }

/-- Table flush of the heading branch (source lines 158–162): guard
`in_table and current_table`, reset inside the guard. -/
def flushTableG (st : PState) : PState :=
  if st.inTable = true ∧ st.curTable ≠ [] then
    { st with
      current := match st.current with
        | some s => some (s.addTable st.curTable)
        | none => none,
      curTable := [], inTable := false }
  else st

/-- Table flush of the table-end branch (source lines 228–233):
`elif in_table:` — append guarded by `current_section and current_table`,
reset unconditional within the branch. -/
def flushTableT (st : PState) : PState :=
  if st.inTable = true then
    { st with
      current := match st.current with
        | some s => if st.curTable ≠ [] then some (s.addTable st.curTable) else some s
        | none => none,
      curTable := [], inTable := false }
  else st

/-- Separator-row alignment capture (source lines 216–222): stored only
when a current section exists, keyed by the section's identity (creation
index) and `len(current_section['tables'])`. -/
def recordAlign (st : PState) (info : List Align) : PState :=
  match st.current with
  | some s =>
    { st with tableAligns := ((st.done.length, s.tables.length), info) :: st.tableAligns }
  | none => st

/-- The tail of the per-line classifier: the blank-line branch (source
lines 268–282, flushing paragraph then list) followed by the
ordinary-text branch (lines 284–286, appending to the paragraph buffer
only when not inside a list). -/
def restLine (st : PState) (line : List Char) : PState :=
  if hasContent line = false then flushListG (flushPara st)
  else if st.inList = false then { st with paraLines := st.paraLines ++ [line] }
  else st

/-- Section creation of the heading branch (source lines 164–177): the
new dict is appended to `self.sections` and becomes current (the
previously current section is no longer mutated, hence moves to `done`). -/
def pushSection (st : PState) (lvl : Nat) (text : List Char) : PState :=
  { st with
    done := st.done ++ st.current.toList,
    current := some ⟨text, lvl, [], [], [], []⟩ }

/-- `if not in_table: in_table = True; current_table = []`
(source lines 195–198). -/
def openTable (st : PState) : PState :=
  if st.inTable then st else { st with inTable := true, curTable := [] }

/-- `if not in_list: in_list = True; current_list = []`
(source lines 244–247). -/
def openList (st : PState) : PState :=
  if st.inList then st else { st with inList := true, curList := [] }

/-- The list-item / list-continuation / blank / ordinary-text part of the
classifier (source lines 236–286), run after the table-end flush. -/
def stepAfterTable (st1 : PState) (line : List Char) : PState :=
  match listMatch line with
  | some (indent, content) =>
    let st3 := openList (flushPara st1)
    { st3 with curList := st3.curList ++ [(indent, content)] }
  | none =>
    if st1.inList = true ∧ hasContent line = true then
      if bulletStartMatch line = false then
        restLine (flushListT st1) line
      else
        st1
    else
      restLine st1 line

/-- Per-line classification of an already right-stripped line, following
the source's branch order exactly: heading (141–178), table row (181–227),
table end (228–233), then `stepAfterTable` (236–286). -/
def stepLine (st : PState) (line : List Char) : PState :=
  match headingMatch line with
  | some (lvl, text) =>
    pushSection (flushTableG (flushListG (flushPara st))) lvl text
  | none =>
    if isTableLine line then
      let st2 := openTable (flushListG (flushPara st))
      let cells := splitCells line
      if cells.all isSeparatorCell then
        recordAlign st2 (cells.map alignOfCell)
      else
        { st2 with curTable := st2.curTable ++ [cells] }
    else
      stepAfterTable (flushTableT st) line

/-- One iteration of the `for line in lines:` loop: right-strip, then
classify (source line 139). -/
def step (st : PState) (raw : List Char) : PState :=
  stepLine st (rstrip raw)

/-- Parser state at loop entry (source lines 84, 130–136). -/
def initState : PState :=
  ⟨[], none, false, [], [], false, [], []⟩

/-- End-of-input flushes (source lines 289–299): pending paragraph, list
and table, in that order, each appended only if a current section exists. -/
def finalize (st : PState) : PState :=
  flushTableG (flushListG (flushPara st))

/-- `parse_markdown`: the pure content of the source method (lines
138–299) — fold the classifier over the lines and flush the remains.
Returns the section list (`self.sections`) and the alignment side map
(`self.table_alignments`). -/
def parse_markdown (lines : List (List Char)) :
    List Sect × List ((Nat × Nat) × List Align) :=
  let st := finalize (lines.foldl step initState)
  (st.done ++ st.current.toList, st.tableAligns)

/-! ## Column width heuristic (`_get_column_width`, source lines 309–349) -/

/-- Characters counted by the first `findall` of `_get_column_width`
(source line 328): CJK punctuation/kana/ideographs,
`[　-〿぀-ゟ゠-ヿ一-鿿]`. -/
def isJpChar (c : Char) : Bool :=
  let n := c.toNat
  decide ((0x3000 ≤ n ∧ n ≤ 0x303f) ∨ (0x3040 ≤ n ∧ n ≤ 0x309f) ∨
    (0x30a0 ≤ n ∧ n ≤ 0x30ff) ∨ (0x4e00 ≤ n ∧ n ≤ 0x9fff))

/-- Characters counted by the second `findall` (source line 331):
full-width forms `[！-｠]`. -/
def isFwChar (c : Char) : Bool :=
  decide (0xff01 ≤ c.toNat ∧ c.toNat ≤ 0xff60)

/-- The raw (unclamped, newline-oblivious) width formula of
`_get_column_width` (source lines 328–341):
`2.0 + (jp*2.0 + fw*2.0 + half*1.0) * 1.2` where `half = len - jp - fw`. -/
def baseWidth (cs : List Char) : ℚ :=
  let jp : ℚ := (cs.countP isJpChar : ℕ)
  let fw : ℚ := (cs.countP isFwChar : ℕ)
  let half : ℚ := (cs.length : ℚ) - jp - fw
  2 + (jp * 2 + fw * 2 + half * 1) * (6 / 5)

/-- The final clamp of `_get_column_width` (source line 349):
`min(max(width, 10.0), 60.0)`. -/
def clampW (w : ℚ) : ℚ :=
  min (max w 10) 60

/-- `text.split('\n')`. -/
def splitNl (cs : List Char) : List (List Char) :=
  splitOnChar '\n' cs

/-- Python `max(list)` on a nonempty list (`[]` never arises where used). -/
def listMaxQ : List ℚ → ℚ
  | [] => 0
  | x :: xs => xs.foldl max x

/-- `_get_column_width` (source lines 309–349).  The argument is always a
string here, so the `None` guard and `str()` conversion are identities.
When the text contains a newline the source recurses on each line of
`text.split('\n')`; those lines are newline-free, so the recursive call
reduces to `clampW (baseWidth line)`, which is inlined below (this
unfolding of exactly one recursion level is what makes the definition
structural). -/
def get_column_width (cs : List Char) : ℚ :=
  let w0 := baseWidth cs
  let w :=
    if 0 < cs.count '\n' then
      max w0 (listMaxQ ((splitNl cs).map (fun l => clampW (baseWidth l))))
    else w0
  clampW w

/-! ## Numeric-cell detection (`float(cell_value.replace(',', ''))`,
source lines 498–507) -/

/-- ASCII digit. -/
def isDigitCh (c : Char) : Bool :=
  decide ('0' ≤ c ∧ c ≤ '9')

/-- Consume a digit run in which single underscores may appear between
digits (CPython's number grammar since 3.6); returns the unconsumed rest. -/
def munchMore : List Char → List Char
  | '_' :: c :: rest => if isDigitCh c then munchMore rest else '_' :: c :: rest
  | c :: rest => if isDigitCh c then munchMore rest else c :: rest
  | [] => []

/-- A digit run must begin with a digit; `none` if it does not. -/
def munchDigits : List Char → Option (List Char)
  | c :: rest => if isDigitCh c then some (munchMore rest) else none
  | [] => none

/-- Optional exponent part consuming the whole rest of the string:
`(e|E) [sign] digits`. -/
def expOk : List Char → Bool
  | [] => true
  | e :: rest =>
    if e = 'e' ∨ e = 'E' then
      let rest2 := match rest with
        | c :: r => if c = '+' ∨ c = '-' then r else c :: r
        | [] => []
      match munchDigits rest2 with
      | some [] => true
      | _ => false
    else false

/-- Significand and exponent of CPython's `float(str)` grammar (after the
optional sign): `digits [ '.' [digits] ] [exp]` or `'.' digits [exp]`. -/
def floatBody (cs : List Char) : Bool :=
  match cs with
  | '.' :: rest =>
    match munchDigits rest with
    | some r => expOk r
    | none => false
  | _ =>
    match munchDigits cs with
    | some ('.' :: r2) =>
      (match munchDigits r2 with
       | some r3 => expOk r3
       | none => expOk r2)
    | some r => expOk r
    | none => false

/-- Whether Python `float(s)` succeeds: optional surrounding whitespace,
optional sign, then a numeric body or a case-insensitive
`inf`/`infinity`/`nan`. -/
def pyFloatOk (cs : List Char) : Bool :=
  let t := stripWs cs
  let t2 := match t with
    | c :: r => if c = '+' ∨ c = '-' then r else c :: r
    | [] => []
  let low := t2.map Char.toLower
  if low = "inf".data ∨ low = "infinity".data ∨ low = "nan".data then true
  else floatBody t2

/-- Data-cell alignment fallback (source lines 497–507): strip thousands
commas, right-align iff the result parses as a float. -/
def numericAlign (v : List Char) : Align :=
  if pyFloatOk (v.filter (fun c => c ≠ ',')) then .right else .left

/-- Per-cell horizontal alignment of a table data cell (source lines
490–507): a captured alignment entry wins when the info list is truthy
(nonempty) and covers the column, else the numeric fallback. -/
def resolveAlign (ai : Option (List Align)) (colIndex : Nat) (v : List Char) : Align :=
  match ai with
  | some info =>
    if info ≠ [] ∧ colIndex - 1 < info.length then info.getD (colIndex - 1) .left
    else numericAlign v
  | none => numericAlign v

/-! ## Layout engine (`create_excel`, source lines 351–521)

The opaque spreadsheet writer is modelled as an instruction trace: value
writes, data-cell horizontal alignments, column-width assignments (tagged
with whether they come from a header row, i.e. source line 472, or a data
row, i.e. line 516) and row heights.  Purely visual styling (fonts, fills,
borders, indents, wrap flags) is not traced. -/

/-- One writer instruction. -/
inductive Instr where
  | cellW (row col : Nat) (v : List Char)
  | alignW (row col : Nat) (a : Align)
  | colW (col : Nat) (w : ℚ) (fromHeader : Bool)
  | rowH (row : Nat) (h : ℚ)
deriving DecidableEq, Repr

/-- openpyxl's default `ColumnDimension.width`, returned by
`sheet.column_dimensions[letter].width` before any assignment.  The
constant's value affects no theorem below. -/
def defaultColWidth : ℚ := 13

/-- Layout engine state: the row cursor `self.current_row`, the
worksheet's column widths, and the emitted instruction trace. -/
structure LState where
  row : Nat
  widths : Nat → ℚ
  instrs : List Instr

/-- Append one instruction to the trace. -/
def emit (st : LState) (i : Instr) : LState :=
  { st with instrs := st.instrs ++ [i] }

/-- `sheet.column_dimensions[col].width = w`, traced with its origin. -/
def setW (st : LState) (c : Nat) (w : ℚ) (hdr : Bool) : LState :=
  { st with
    widths := fun c2 => if c2 = c then w else st.widths c2,
    instrs := st.instrs ++ [.colW c w hdr] }

/-- Layout-state at `create_excel` entry: `self.current_row = 1`
(source line 85), fresh worksheet. -/
def initL : LState :=
  ⟨1, fun _ => defaultColWidth, []⟩

/-- Python `list.index(x)`: index of the first element equal to `x`
(the `ValueError` case cannot arise at the call site modelled here,
where the element is drawn from the list itself). -/
def pyIndex [DecidableEq α] : List α → α → Nat
  | [], _ => 0
  | x :: xs, a => if x = a then 0 else pyIndex xs a + 1

/-- The alignment info used for a table (source lines 478–480):
`self.table_alignments.get((id(section), section['tables'].index(table)))`. -/
def usedAlignInfo (aligns : List ((Nat × Nat) × List Align)) (sIdx : Nat)
    (sec : Sect) (t : List (List (List Char))) : Option (List Align) :=
  aligns.lookup (sIdx, pyIndex sec.tables t)

/-- Header-row cells (source lines 463–472): write each cell at
`(row, col)` and set the column width unconditionally. -/
def layoutHeaderCells (row : Nat) : Nat → List (List Char) → LState → LState
  | _, [], st => st
  | col, v :: rest, st =>
    let st1 := emit st (.cellW row col v)
    let st2 := setW st1 col (get_column_width v) true
    layoutHeaderCells row (col + 1) rest st2

/-- Data-row cells (source lines 483–516): the (always true) guard
`col_index <= len(row_data)` is kept literally; write the cell, its
resolved alignment, and the column width as `max(current, candidate)`. -/
def layoutDataCells (row : Nat) (ai : Option (List Align)) (n : Nat) :
    Nat → List (List Char) → LState → LState
  | _, [], st => st
  | col, v :: rest, st =>
    let st1 :=
      if col ≤ n then
        let s1 := emit st (.cellW row col v)
        let s2 := emit s1 (.alignW row col (resolveAlign ai col v))
        setW s2 col (max (s2.widths col) (get_column_width v)) false
      else st
    layoutDataCells row ai n (col + 1) rest st1

/-- All data rows of a table (source lines 482–518), advancing the row
cursor after each. -/
def layoutDataRows (ai : Option (List Align)) :
    List (List (List Char)) → LState → LState
  | [], st => st
  | r :: rs, st =>
    let st1 := layoutDataCells st.row ai r.length 1 r st
    let st2 := { st1 with row := st1.row + 1 }
    layoutDataRows ai rs st2

/-- One table (source lines 456–521): empty tables are skipped entirely
(`continue` also skips the trailing blank row); otherwise header row,
data rows, then one blank separator row. -/
def layoutTable (aligns : List ((Nat × Nat) × List Align)) (sIdx : Nat)
    (sec : Sect) (st : LState) (t : List (List (List Char))) : LState :=
  match t with
  | [] => st
  | hd :: tl =>
    let st1 := layoutHeaderCells st.row 1 hd st
    let st2 := { st1 with row := st1.row + 1 }
    let ai := usedAlignInfo aligns sIdx sec t
    let st3 := layoutDataRows ai tl st2
    { st3 with row := st3.row + 1 }

/-- One paragraph (source lines 422–437): whitespace-only paragraphs are
skipped; multi-line paragraphs get a row height of
`max(24, 15 * line_count)`. -/
def layoutParagraph (st : LState) (p : List Char) : LState :=
  if hasContent p then
    let st1 := emit st (.cellW st.row 1 p)
    let st2 :=
      if 0 < p.count '\n' then
        emit st1 (.rowH st1.row (max 24 (15 * ((p.count '\n' : ℚ) + 1))))
      else st1
    { st2 with row := st2.row + 1 }
  else st

/-- One list block (source lines 440–453): each item is written as
`"• " + content` in column 1, then one blank separator row. -/
def layoutListBlock (st : LState) (items : List (Nat × List Char)) : LState :=
  let st1 := items.foldl
    (fun st it =>
      let s1 := emit st (.cellW st.row 1 ('•' :: ' ' :: it.2))
      { s1 with row := s1.row + 1 })
    st
  { st1 with row := st1.row + 1 }

/-- One section (source lines 404–521): heading (with fixed row height
24), paragraphs, list blocks, tables. -/
def layoutSection (aligns : List ((Nat × Nat) × List Align)) (sIdx : Nat)
    (st : LState) (sec : Sect) : LState :=
  let st1 := emit st (.cellW st.row 1 sec.heading)
  let st2 := emit st1 (.rowH st1.row 24)
  let st3 := { st2 with row := st2.row + 1 }
  let st4 := sec.paragraphs.foldl layoutParagraph st3
  let st5 := sec.lists.foldl layoutListBlock st4
  sec.tables.foldl (fun st t => layoutTable aligns sIdx sec st t) st5

/-- `create_excel`: the pure layout content of the source method — walk
the sections in order (section identity rendered as position, matching
`id(section)` for the distinct dicts held in `self.sections`). -/
def create_excel (doc : List Sect) (aligns : List ((Nat × Nat) × List Align)) : LState :=
  (doc.enum).foldl (fun st p => layoutSection aligns p.1 st p.2) initL

/-- The value writes of a trace, as `(row, column, value)` triples. -/
def cellWrites (l : List Instr) : List (Nat × Nat × List Char) :=
  l.filterMap (fun i => match i with
    | .cellW r c v => some (r, c, v)
    | _ => none)

/-- The column-width writes of a trace for one column, in order, paired
with their header-row origin tag. -/
def colWidthWrites (l : List Instr) (c : Nat) : List (ℚ × Bool) :=
  l.filterMap (fun i => match i with
    | .colW c2 w hdr => if c2 = c then some (w, hdr) else none
    | _ => none)

/-- The target row of a row-addressed instruction (cell writes, cell
alignments, row heights); column-width writes have none. -/
def rowOfI : Instr → Option Nat
  | .cellW r _ _ => some r
  | .alignW r _ _ => some r
  | .rowH r _ => some r
  | .colW _ _ _ => none

/-- The rows targeted by a trace, in emission order. -/
def rowsOf (l : List Instr) : List Nat :=
  l.filterMap rowOfI

/-- The per-section block sequence in the order `create_excel` emits it:
the heading row first, then all paragraphs, then all list blocks, then
all tables. -/
def emittedBlocks (s : Sect) : List Block :=
  s.paragraphs.map .para ++ s.lists.map .list ++ s.tables.map .table

/-! ## Branch equations for the classifier -/

theorem stepLine_heading {line : List Char} {lvl : Nat} {text : List Char} (st : PState)
    (h : headingMatch line = some (lvl, text)) :
    stepLine st line = pushSection (flushTableG (flushListG (flushPara st))) lvl text := by
  simp only [stepLine, h]

theorem stepLine_tableSep {line : List Char} (st : PState)
    (h1 : headingMatch line = none) (h2 : isTableLine line = true)
    (h3 : (splitCells line).all isSeparatorCell = true) :
    stepLine st line =
      recordAlign (openTable (flushListG (flushPara st)))
        ((splitCells line).map alignOfCell) := by
  simp only [stepLine, h1, h2, h3, if_true]

theorem stepLine_tableData {line : List Char} (st : PState)
    (h1 : headingMatch line = none) (h2 : isTableLine line = true)
    (h3 : (splitCells line).all isSeparatorCell = false) :
    stepLine st line =
      { openTable (flushListG (flushPara st)) with
        curTable := (openTable (flushListG (flushPara st))).curTable ++ [splitCells line] } := by
  simp only [stepLine, h1, h2, h3, Bool.false_eq_true, if_true, if_false]

theorem stepLine_listItem {line : List Char} {indent : Nat} {content : List Char}
    (st : PState) (h1 : headingMatch line = none) (h2 : isTableLine line = false)
    (h3 : listMatch line = some (indent, content)) :
    stepLine st line =
      { openList (flushPara (flushTableT st)) with
        curList := (openList (flushPara (flushTableT st))).curList ++ [(indent, content)] } := by
  simp only [stepLine, stepAfterTable, h1, h2, h3, Bool.false_eq_true, if_false]

theorem stepLine_listCont {line : List Char} (st : PState)
    (h1 : headingMatch line = none) (h2 : isTableLine line = false)
    (h3 : listMatch line = none) (h4 : st.inList = true) (h5 : hasContent line = true)
    (h6 : bulletStartMatch line = true) :
    stepLine st line = flushTableT st := by
  have h4' : (flushTableT st).inList = true := by
    unfold flushTableT
    split
    · cases h : st.current <;> simp [h, h4] <;> split <;> simp [h4]
    · exact h4
  simp only [stepLine, stepAfterTable, h1, h2, h3, Bool.false_eq_true, if_false, h4', h5,
    h6, and_self, if_true, Bool.true_eq_false]

theorem stepLine_listTerm {line : List Char} (st : PState)
    (h1 : headingMatch line = none) (h2 : isTableLine line = false)
    (h3 : listMatch line = none) (h4 : st.inList = true) (h5 : hasContent line = true)
    (h6 : bulletStartMatch line = false) :
    stepLine st line = restLine (flushListT (flushTableT st)) line := by
  have h4' : (flushTableT st).inList = true := by
    unfold flushTableT
    split
    · cases h : st.current <;> simp [h, h4] <;> split <;> simp [h4]
    · exact h4
  simp only [stepLine, stepAfterTable, h1, h2, h3, Bool.false_eq_true, if_false, h4', h5,
    h6, and_self, if_true]

theorem stepLine_rest {line : List Char} (st : PState)
    (h1 : headingMatch line = none) (h2 : isTableLine line = false)
    (h3 : listMatch line = none)
    (h4 : st.inList = false ∨ hasContent line = false) :
    stepLine st line = restLine (flushTableT st) line := by
  have h4' : ¬ ((flushTableT st).inList = true ∧ hasContent line = true) := by
    have : (flushTableT st).inList = st.inList := by
      unfold flushTableT
      split
      · cases h : st.current <;> simp [h] <;> split <;> simp
      · rfl
    rw [this]
    rcases h4 with h | h <;> simp [h]
  simp only [stepLine, stepAfterTable, h1, h2, h3, Bool.false_eq_true, if_false, h4']

/-! ## Section count (claim C6) -/

/-- Number of sections held by a parser state. -/
def secCount (st : PState) : Nat :=
  st.done.length + st.current.toList.length

theorem secCount_set_paraLines (st : PState) (v : List (List Char)) :
    secCount { st with paraLines := v } = secCount st := rfl

theorem secCount_flushPara (st : PState) : secCount (flushPara st) = secCount st := by
  unfold flushPara
  split
  · cases h : st.current <;> simp [secCount, h]
  · rfl

theorem secCount_flushListG (st : PState) : secCount (flushListG st) = secCount st := by
  unfold flushListG
  split
  · cases h : st.current <;> simp [secCount, h]
  · rfl

theorem secCount_flushListT (st : PState) : secCount (flushListT st) = secCount st := by
  unfold flushListT
  cases h : st.current <;> simp [secCount, h] <;> split <;> simp

theorem secCount_flushTableG (st : PState) : secCount (flushTableG st) = secCount st := by
  unfold flushTableG
  split
  · cases h : st.current <;> simp [secCount, h]
  · rfl

theorem secCount_flushTableT (st : PState) : secCount (flushTableT st) = secCount st := by
  unfold flushTableT
  split
  · cases h : st.current <;> simp [secCount, h] <;> split <;> simp
  · rfl

theorem secCount_openTable (st : PState) : secCount (openTable st) = secCount st := by
  unfold openTable; split <;> rfl

theorem secCount_openList (st : PState) : secCount (openList st) = secCount st := by
  unfold openList; split <;> rfl

theorem secCount_recordAlign (st : PState) (info : List Align) :
    secCount (recordAlign st info) = secCount st := by
  unfold recordAlign
  cases h : st.current <;> simp [secCount, h]

theorem secCount_restLine (st : PState) (line : List Char) :
    secCount (restLine st line) = secCount st := by
  unfold restLine
  split
  · rw [secCount_flushListG, secCount_flushPara]
  · split <;> rfl

theorem secCount_pushSection (st : PState) (lvl : Nat) (text : List Char) :
    secCount (pushSection st lvl text) = secCount st + 1 := by
  unfold pushSection secCount
  cases h : st.current <;> simp [h]

theorem secCount_stepLine (st : PState) (line : List Char) :
    secCount (stepLine st line) =
      secCount st + (if (headingMatch line).isSome then 1 else 0) := by
  cases h1 : headingMatch line with
  | some p =>
    obtain ⟨lvl, text⟩ := p
    rw [stepLine_heading st h1, secCount_pushSection, secCount_flushTableG,
      secCount_flushListG, secCount_flushPara]
    simp
  | none =>
    simp only [Option.isSome_none, Bool.false_eq_true, if_false, Nat.add_zero]
    cases h2 : isTableLine line with
    | true =>
      cases h3 : (splitCells line).all isSeparatorCell with
      | true =>
        rw [stepLine_tableSep st h1 h2 h3, secCount_recordAlign, secCount_openTable,
          secCount_flushListG, secCount_flushPara]
      | false =>
        rw [stepLine_tableData st h1 h2 h3]
        show secCount (openTable (flushListG (flushPara st))) = secCount st
        rw [secCount_openTable, secCount_flushListG, secCount_flushPara]
    | false =>
      cases h3 : listMatch line with
      | some p =>
        obtain ⟨indent, content⟩ := p
        rw [stepLine_listItem st h1 h2 h3]
        show secCount (openList (flushPara (flushTableT st))) = secCount st
        rw [secCount_openList, secCount_flushPara, secCount_flushTableT]
      | none =>
        cases h4 : st.inList with
        | true =>
          cases h5 : hasContent line with
          | true =>
            cases h6 : bulletStartMatch line with
            | true => rw [stepLine_listCont st h1 h2 h3 h4 h5 h6, secCount_flushTableT]
            | false =>
              rw [stepLine_listTerm st h1 h2 h3 h4 h5 h6, secCount_restLine,
                secCount_flushListT, secCount_flushTableT]
          | false =>
            rw [stepLine_rest st h1 h2 h3 (Or.inr h5), secCount_restLine, secCount_flushTableT]
        | false =>
          rw [stepLine_rest st h1 h2 h3 (Or.inl h4), secCount_restLine, secCount_flushTableT]

theorem secCount_foldl (lines : List (List Char)) (st : PState) :
    secCount (lines.foldl step st) =
      secCount st + lines.countP (fun l => (headingMatch (rstrip l)).isSome) := by
  induction lines generalizing st with
  | nil => simp
  | cons l ls ih =>
    rw [List.foldl_cons, ih, List.countP_cons]
    show secCount (stepLine st (rstrip l)) + _ = _
    rw [secCount_stepLine]
    cases h : (headingMatch (rstrip l)).isSome <;> simp [h] <;> omega

/-- **C6.** For every input line sequence, the number of sections in the
parsed document equals the number of (right-trimmed) lines matching the
heading pattern `^#{1,6}\s+.+$`; and a line whose maximal run of leading
`#` characters is longer than 6 never matches (so it never creates a
section and is classified by the later rules instead). -/
theorem C6_heading_count_invariant :
    (∀ lines : List (List Char),
      (parse_markdown lines).1.length =
        lines.countP (fun l => (headingMatch (rstrip l)).isSome)) ∧
    (∀ line : List Char, 6 < (line.takeWhile (fun c => c == '#')).length →
      headingMatch line = none) := by
  constructor
  · intro lines
    show ((finalize (lines.foldl step initState)).done ++
        (finalize (lines.foldl step initState)).current.toList).length = _
    rw [List.length_append]
    show secCount (finalize (lines.foldl step initState)) = _
    unfold finalize
    rw [secCount_flushTableG, secCount_flushListG, secCount_flushPara, secCount_foldl]
    simp [secCount, initState]
  · intro line hlen
    unfold headingMatch
    have : ¬ ((line.takeWhile (fun c => c == '#')).length ≤ 6) := by omega
    simp only [this, and_false, false_and, if_false]

/-- **C6, witness.** The second clause at the concrete line `'####### x'`
(seven leading `#`), and the first clause at a concrete two-heading
input. -/
theorem C6_heading_count_invariant_witness :
    headingMatch "####### x".data = none ∧
    (parse_markdown (["# a", "x", "## b"].map String.data)).1.length =
      (["# a", "x", "## b"].map String.data).countP
        (fun l => (headingMatch (rstrip l)).isSome) :=
  ⟨C6_heading_count_invariant.2 "####### x".data (by decide),
   C6_heading_count_invariant.1 (["# a", "x", "## b"].map String.data)⟩

/-! ## Generic branch preservation -/

/-- Any property preserved by each of the classifier's primitive state
transformations is preserved by a whole classification step. -/
theorem stepLine_preserve (P : PState → Prop) (line : List Char)
    (hPara : ∀ st, P st → P (flushPara st))
    (hListG : ∀ st, P st → P (flushListG st))
    (hListT : ∀ st, P st → P (flushListT st))
    (hTableG : ∀ st, P st → P (flushTableG st))
    (hTableT : ∀ st, P st → P (flushTableT st))
    (hOpenT : ∀ st, P st → P (openTable st))
    (hOpenL : ∀ st, P st → P (openList st))
    (hRec : ∀ st info, P st → P (recordAlign st info))
    (hPush : ∀ st lvl text, headingMatch line = some (lvl, text) →
      P st → P (pushSection st lvl text))
    (hParaLines : ∀ st, hasContent line = true →
      P st → P { st with paraLines := st.paraLines ++ [line] })
    (hCurT : ∀ st, isTableLine line = true →
      P st → P { st with curTable := st.curTable ++ [splitCells line] })
    (hCurL : ∀ st i c, listMatch line = some (i, c) →
      P st → P { st with curList := st.curList ++ [(i, c)] })
    (st : PState) (h : P st) : P (stepLine st line) := by
  have hRest : ∀ st, P st → P (restLine st line) := by
    intro st h
    unfold restLine
    by_cases hc : hasContent line = false
    · rw [if_pos hc]
      exact hListG _ (hPara _ h)
    · rw [if_neg hc]
      have hc2 : hasContent line = true := by
        revert hc
        cases hasContent line <;> simp
      split
      · exact hParaLines _ hc2 h
      · exact h
  cases h1 : headingMatch line with
  | some p =>
    obtain ⟨lvl, text⟩ := p
    rw [stepLine_heading st h1]
    exact hPush _ _ _ h1 (hTableG _ (hListG _ (hPara _ h)))
  | none =>
    cases h2 : isTableLine line with
    | true =>
      cases h3 : (splitCells line).all isSeparatorCell with
      | true =>
        rw [stepLine_tableSep st h1 h2 h3]
        exact hRec _ _ (hOpenT _ (hListG _ (hPara _ h)))
      | false =>
        rw [stepLine_tableData st h1 h2 h3]
        exact hCurT _ h2 (hOpenT _ (hListG _ (hPara _ h)))
    | false =>
      cases h3 : listMatch line with
      | some p =>
        obtain ⟨indent, content⟩ := p
        rw [stepLine_listItem st h1 h2 h3]
        exact hCurL _ _ _ h3 (hOpenL _ (hPara _ (hTableT _ h)))
      | none =>
        cases h4 : st.inList with
        | true =>
          cases h5 : hasContent line with
          | true =>
            cases h6 : bulletStartMatch line with
            | true =>
              rw [stepLine_listCont st h1 h2 h3 h4 h5 h6]
              exact hTableT _ h
            | false =>
              rw [stepLine_listTerm st h1 h2 h3 h4 h5 h6]
              exact hRest _ (hListT _ (hTableT _ h))
          | false =>
            rw [stepLine_rest st h1 h2 h3 (Or.inr h5)]
            exact hRest _ (hTableT _ h)
        | false =>
          rw [stepLine_rest st h1 h2 h3 (Or.inl h4)]
          exact hRest _ (hTableT _ h)

/-! ## Per-category flush order inside a section (claim C2) -/

/-- The paragraph payload of a block, if it is one. -/
def Block.paraText : Block → Option (List Char)
  | .para p => some p
  | _ => none

/-- The list payload of a block, if it is one. -/
def Block.listItems : Block → Option (List (Nat × List Char))
  | .list l => some l
  | _ => none

/-- The table payload of a block, if it is one. -/
def Block.tableRows : Block → Option (List (List (List Char)))
  | .table t => some t
  | _ => none

/-- Block kind tests. -/
def Block.isPara : Block → Bool
  | .para _ => true
  | _ => false

def Block.isList : Block → Bool
  | .list _ => true
  | _ => false

def Block.isTable : Block → Bool
  | .table _ => true
  | _ => false

/-- A section's three collections are exactly the kind-projections of its
flush-order trace. -/
def SecWF (s : Sect) : Prop :=
  s.paragraphs = s.blocks.filterMap Block.paraText ∧
  s.lists = s.blocks.filterMap Block.listItems ∧
  s.tables = s.blocks.filterMap Block.tableRows

theorem SecWF_addPara {s : Sect} (h : SecWF s) (p : List Char) : SecWF (s.addPara p) := by
  obtain ⟨h1, h2, h3⟩ := h
  refine ⟨?_, ?_, ?_⟩ <;>
    simp [Sect.addPara, List.filterMap_append, h1, h2, h3, Block.paraText,
      Block.listItems, Block.tableRows]

theorem SecWF_addList {s : Sect} (h : SecWF s) (l : List (Nat × List Char)) :
    SecWF (s.addList l) := by
  obtain ⟨h1, h2, h3⟩ := h
  refine ⟨?_, ?_, ?_⟩ <;>
    simp [Sect.addList, List.filterMap_append, h1, h2, h3, Block.paraText,
      Block.listItems, Block.tableRows]

theorem SecWF_addTable {s : Sect} (h : SecWF s) (t : List (List (List Char))) :
    SecWF (s.addTable t) := by
  obtain ⟨h1, h2, h3⟩ := h
  refine ⟨?_, ?_, ?_⟩ <;>
    simp [Sect.addTable, List.filterMap_append, h1, h2, h3, Block.paraText,
      Block.listItems, Block.tableRows]

/-- Every section held by the state satisfies `SecWF`. -/
def StateWF (st : PState) : Prop :=
  (∀ s ∈ st.done, SecWF s) ∧ (∀ s ∈ st.current.toList, SecWF s)

theorem StateWF_flushPara {st : PState} (h : StateWF st) : StateWF (flushPara st) := by
  obtain ⟨hd, hc⟩ := h
  unfold flushPara
  split
  · cases hcur : st.current with
    | none => exact ⟨hd, by simp [hcur]⟩
    | some s =>
      refine ⟨hd, ?_⟩
      simp only [hcur, Option.toList_some, List.mem_singleton]
      rintro s2 rfl
      exact SecWF_addPara (hc s (by simp [hcur])) _
  · exact ⟨hd, hc⟩

theorem StateWF_flushListG {st : PState} (h : StateWF st) : StateWF (flushListG st) := by
  obtain ⟨hd, hc⟩ := h
  unfold flushListG
  split
  · cases hcur : st.current with
    | none => exact ⟨hd, by simp [hcur]⟩
    | some s =>
      refine ⟨hd, ?_⟩
      simp only [hcur, Option.toList_some, List.mem_singleton]
      rintro s2 rfl
      exact SecWF_addList (hc s (by simp [hcur])) _
  · exact ⟨hd, hc⟩

theorem StateWF_flushListT {st : PState} (h : StateWF st) : StateWF (flushListT st) := by
  obtain ⟨hd, hc⟩ := h
  unfold flushListT
  cases hcur : st.current with
  | none => exact ⟨hd, by simp [hcur]⟩
  | some s =>
    refine ⟨hd, ?_⟩
    simp only [hcur]
    split
    · intro s2 hs2
      simp only [Option.toList_some, List.mem_singleton] at hs2
      subst hs2
      exact SecWF_addList (hc s (by simp [hcur])) _
    · intro s2 hs2
      simp only [Option.toList_some, List.mem_singleton] at hs2
      subst hs2
      exact hc _ (by simp [hcur])

theorem StateWF_flushTableG {st : PState} (h : StateWF st) : StateWF (flushTableG st) := by
  obtain ⟨hd, hc⟩ := h
  unfold flushTableG
  split
  · cases hcur : st.current with
    | none => exact ⟨hd, by simp [hcur]⟩
    | some s =>
      refine ⟨hd, ?_⟩
      simp only [hcur, Option.toList_some, List.mem_singleton]
      rintro s2 rfl
      exact SecWF_addTable (hc s (by simp [hcur])) _
  · exact ⟨hd, hc⟩

theorem StateWF_flushTableT {st : PState} (h : StateWF st) : StateWF (flushTableT st) := by
  obtain ⟨hd, hc⟩ := h
  unfold flushTableT
  split
  · cases hcur : st.current with
    | none => exact ⟨hd, by simp [hcur]⟩
    | some s =>
      refine ⟨hd, ?_⟩
      simp only [hcur]
      split
      · intro s2 hs2
        simp only [Option.toList_some, List.mem_singleton] at hs2
        subst hs2
        exact SecWF_addTable (hc s (by simp [hcur])) _
      · intro s2 hs2
        simp only [Option.toList_some, List.mem_singleton] at hs2
        subst hs2
        exact hc _ (by simp [hcur])
  · exact ⟨hd, hc⟩

theorem StateWF_pushSection {st : PState} (h : StateWF st) (lvl : Nat) (text : List Char) :
    StateWF (pushSection st lvl text) := by
  obtain ⟨hd, hc⟩ := h
  refine ⟨?_, ?_⟩
  · intro s hs
    rcases List.mem_append.1 hs with hs | hs
    · exact hd s hs
    · exact hc s hs
  · intro s hs
    simp only [pushSection, Option.toList_some, List.mem_singleton] at hs
    subst hs
    exact ⟨rfl, rfl, rfl⟩

theorem StateWF_stepLine {st : PState} (h : StateWF st) (line : List Char) :
    StateWF (stepLine st line) := by
  refine stepLine_preserve StateWF line ?_ ?_ ?_ ?_ ?_ ?_ ?_ ?_ ?_ ?_ ?_ ?_ st h
  · exact fun _ h => StateWF_flushPara h
  · exact fun _ h => StateWF_flushListG h
  · exact fun _ h => StateWF_flushListT h
  · exact fun _ h => StateWF_flushTableG h
  · exact fun _ h => StateWF_flushTableT h
  · intro st h
    unfold openTable
    split
    · exact h
    · exact ⟨h.1, h.2⟩
  · intro st h
    unfold openList
    split
    · exact h
    · exact ⟨h.1, h.2⟩
  · intro st info h
    unfold recordAlign
    cases hcur : st.current with
    | none => exact h
    | some s => exact ⟨h.1, by simpa [hcur] using h.2⟩
  · exact fun st lvl text _ h => StateWF_pushSection h lvl text
  · exact fun st _ h => ⟨h.1, h.2⟩
  · exact fun st _ h => ⟨h.1, h.2⟩
  · exact fun st i c _ h => ⟨h.1, h.2⟩

theorem StateWF_parse (lines : List (List Char)) :
    ∀ s ∈ (parse_markdown lines).1, SecWF s := by
  have hfold : StateWF (lines.foldl step initState) := by
    induction lines using List.reverseRecOn with
    | nil => exact ⟨by simp [initState], by simp [initState]⟩
    | append_singleton ls l ih =>
      rw [List.foldl_append, List.foldl_cons, List.foldl_nil]
      exact StateWF_stepLine ih (rstrip l)
  have hfin : StateWF (finalize (lines.foldl step initState)) :=
    StateWF_flushTableG (StateWF_flushListG (StateWF_flushPara hfold))
  intro s hs
  rcases List.mem_append.1 hs with hs | hs
  · exact hfin.1 s hs
  · exact hfin.2 s hs

theorem map_filterMap_paraText (l : List Block) :
    (l.filterMap Block.paraText).map Block.para = l.filter Block.isPara := by
  induction l with
  | nil => rfl
  | cons b bs ih => cases b <;> simp [Block.paraText, Block.isPara, ih]

theorem map_filterMap_listItems (l : List Block) :
    (l.filterMap Block.listItems).map Block.list = l.filter Block.isList := by
  induction l with
  | nil => rfl
  | cons b bs ih => cases b <;> simp [Block.listItems, Block.isList, ih]

theorem map_filterMap_tableRows (l : List Block) :
    (l.filterMap Block.tableRows).map Block.table = l.filter Block.isTable := by
  induction l with
  | nil => rfl
  | cons b bs ih => cases b <;> simp [Block.tableRows, Block.isTable, ih]

/-- **C2, amended.** The layout's per-section emission order does *not*
reproduce the document's block order in general (see the counterexample):
`create_excel` always emits all paragraphs, then all list blocks, then all
tables of a section.  What holds is the per-category version: for every
input, each parsed section's emitted block sequence is the stable
per-kind reordering of its original flush order — paragraphs in original
relative order, then lists in original relative order, then tables in
original relative order. -/
theorem C2_amended_per_category_order (lines : List (List Char)) :
    ∀ s ∈ (parse_markdown lines).1,
      emittedBlocks s =
        s.blocks.filter Block.isPara ++ s.blocks.filter Block.isList ++
          s.blocks.filter Block.isTable := by
  intro s hs
  obtain ⟨h1, h2, h3⟩ := StateWF_parse lines s hs
  unfold emittedBlocks
  rw [h1, h2, h3, map_filterMap_paraText, map_filterMap_listItems, map_filterMap_tableRows]

/-- **C2, amended, witness.** Instance at the single section parsed from
the counterexample input. -/
theorem C2_amended_witness :
    emittedBlocks
        ⟨"H".data, 1, ["para".data], [], [[["a".data], ["b".data]]],
          [.table [["a".data], ["b".data]], .para "para".data]⟩ =
      [Block.table [["a".data], ["b".data]], Block.para "para".data].filter Block.isPara ++
        [Block.table [["a".data], ["b".data]], Block.para "para".data].filter Block.isList ++
        [Block.table [["a".data], ["b".data]], Block.para "para".data].filter Block.isTable :=
  C2_amended_per_category_order (["# H", "| a |", "| b |", "para"].map String.data)
    ⟨"H".data, 1, ["para".data], [], [[["a".data], ["b".data]]],
      [.table [["a".data], ["b".data]], .para "para".data]⟩ (by decide)

/-! ## List termination behaviour (claim C3) -/

theorem flushTableT_of_not_inTable {st : PState} (h : st.inTable = false) :
    flushTableT st = st := by
  unfold flushTableT
  simp [h]

theorem listMatch_none_of_no_bullet {line : List Char}
    (h : bulletStartMatch line = false) : listMatch line = none := by
  unfold bulletStartMatch at h
  unfold listMatch
  cases hr : line.dropWhile pyIsSpace with
  | nil => rfl
  | cons c rest2 =>
    rw [hr] at h
    simp only [Bool.or_eq_false_iff, beq_eq_false_iff_ne] at h
    simp only [h.1.1, h.1.2, h.2, or_self, false_and, if_false]

theorem flushListT_paraLines (st : PState) : (flushListT st).paraLines = st.paraLines := by
  unfold flushListT
  cases st.current <;> rfl

theorem flushListT_inList (st : PState) : (flushListT st).inList = false := by
  unfold flushListT
  cases st.current <;> rfl

/-- **C3, amended.** While a list buffer is open (and no table buffer is),
for a line that is neither a heading nor a table row:
* a *blank* line terminates the list (and flushes any pending paragraph);
* a non-blank line that does **not** match the continuation pattern
  `^\s*[-*+]` terminates the list and is itself re-considered as ordinary
  content, starting/extending the paragraph buffer;
* but a non-blank line that matches `^\s*[-*+]` while failing the full
  bullet pattern `^(\s*)[-*+]\s+(.+)$` (such as `'-foo'`) is silently
  consumed: the parser state is left unchanged — the list stays open and
  the line lands in no paragraph.
So the list terminates exactly at the first blank line or the first
non-blank line failing `^\s*[-*+]` — not the full bullet pattern the claim
names. -/
theorem C3_amended_list_termination (st : PState) (raw : List Char)
    (hl : st.inList = true) (ht : st.inTable = false)
    (h1 : headingMatch (rstrip raw) = none)
    (h2 : isTableLine (rstrip raw) = false) :
    (hasContent (rstrip raw) = true → listMatch (rstrip raw) = none →
      bulletStartMatch (rstrip raw) = true → step st raw = st) ∧
    (hasContent (rstrip raw) = true → bulletStartMatch (rstrip raw) = false →
      step st raw =
        { flushListT st with paraLines := st.paraLines ++ [rstrip raw] }) ∧
    (hasContent (rstrip raw) = false →
      step st raw = flushListG (flushPara st)) := by
  refine ⟨?_, ?_, ?_⟩
  · intro h5 h3 h6
    show stepLine st (rstrip raw) = st
    rw [stepLine_listCont st h1 h2 h3 hl h5 h6, flushTableT_of_not_inTable ht]
  · intro h5 h6
    have h3 := listMatch_none_of_no_bullet h6
    show stepLine st (rstrip raw) = _
    rw [stepLine_listTerm st h1 h2 h3 hl h5 h6, flushTableT_of_not_inTable ht]
    unfold restLine
    rw [if_neg (by simp [h5]), if_pos (flushListT_inList st), flushListT_paraLines]
  · intro h5
    have hbullet : bulletStartMatch (rstrip raw) = false := by
      unfold hasContent at h5
      unfold bulletStartMatch
      have hall : ∀ c ∈ rstrip raw, pyIsSpace c = true := by
        intro c hc
        by_contra hcw
        have : (rstrip raw).any (fun c => !(pyIsSpace c)) = true :=
          List.any_eq_true.2 ⟨c, hc, by simp [hcw]⟩
        rw [this] at h5
        exact absurd h5 (by simp)
      rw [List.dropWhile_eq_nil_iff.2 hall]
    show stepLine st (rstrip raw) = _
    rw [stepLine_rest st h1 h2 (listMatch_none_of_no_bullet hbullet) (Or.inr h5),
      flushTableT_of_not_inTable ht]
    unfold restLine
    rw [if_pos (by simp [h5])]

/-- **C3, amended, witness.** The three behaviours at a concrete open-list
state: `'-foo'` is consumed leaving the state unchanged; `'text'`
terminates the list and starts a paragraph; a blank line terminates the
list. -/
theorem C3_amended_witness :
    step ⟨[], some ⟨"H".data, 1, [], [], [], []⟩, false, [], [], true,
        [(0, "a".data)], []⟩ "-foo".data =
      ⟨[], some ⟨"H".data, 1, [], [], [], []⟩, false, [], [], true,
        [(0, "a".data)], []⟩ ∧
    step ⟨[], some ⟨"H".data, 1, [], [], [], []⟩, false, [], [], true,
        [(0, "a".data)], []⟩ "text".data =
      { flushListT ⟨[], some ⟨"H".data, 1, [], [], [], []⟩, false, [], [], true,
          [(0, "a".data)], []⟩ with paraLines := [] ++ ["text".data] } ∧
    step ⟨[], some ⟨"H".data, 1, [], [], [], []⟩, false, [], [], true,
        [(0, "a".data)], []⟩ [] =
      flushListG (flushPara ⟨[], some ⟨"H".data, 1, [], [], [], []⟩, false, [], [],
        true, [(0, "a".data)], []⟩) :=
  ⟨(C3_amended_list_termination _ _ (by decide) (by decide) (by decide) (by decide)).1
      (by decide) (by decide) (by decide),
   (C3_amended_list_termination _ _ (by decide) (by decide) (by decide) (by decide)).2.1
      (by decide) (by decide),
   (C3_amended_list_termination _ _ (by decide) (by decide) (by decide) (by decide)).2.2
      (by decide)⟩

/-! ## Column-width assignment discipline (claim C4) -/

theorem layoutHeaderCells_widths_of_lt (row : Nat) (cells : List (List Char)) :
    ∀ (col : Nat) (st : LState) (c : Nat), c < col →
      (layoutHeaderCells row col cells st).widths c = st.widths c := by
  induction cells with
  | nil => intro col st c _; rfl
  | cons v rest ih =>
    intro col st c hc
    show (layoutHeaderCells row (col + 1) rest _).widths c = _
    rw [ih (col + 1) _ c (Nat.lt_succ_of_lt hc)]
    simp [setW, emit, Nat.ne_of_lt hc]

theorem layoutHeaderCells_widths_covered (row : Nat) (cells : List (List Char)) :
    ∀ (col : Nat) (st : LState) (c : Nat), col ≤ c → c < col + cells.length →
      (layoutHeaderCells row col cells st).widths c =
        get_column_width (cells.getD (c - col) []) := by
  induction cells with
  | nil =>
    intro col st c h1 h2
    simp only [List.length_nil, Nat.add_zero] at h2
    omega
  | cons v rest ih =>
    intro col st c h1 h2
    show (layoutHeaderCells row (col + 1) rest _).widths c = _
    by_cases hc : c = col
    · subst hc
      rw [layoutHeaderCells_widths_of_lt row rest (c + 1) _ c (Nat.lt_succ_self c)]
      simp [setW, emit]
    · have h1' : col + 1 ≤ c := by omega
      rw [ih (col + 1) _ c h1' (by simp at h2 ⊢; omega)]
      have hsub : c - col = (c - (col + 1)) + 1 := by omega
      rw [hsub, List.getD_cons_succ]

theorem layoutDataCells_widths_mono (row : Nat) (ai : Option (List Align)) (n : Nat)
    (cells : List (List Char)) : ∀ (col : Nat) (st : LState) (c : Nat),
      st.widths c ≤ (layoutDataCells row ai n col cells st).widths c := by
  induction cells with
  | nil => intro col st c; exact le_refl _
  | cons v rest ih =>
    intro col st c
    show st.widths c ≤ (layoutDataCells row ai n (col + 1) rest _).widths c
    refine le_trans ?_ (ih (col + 1) _ c)
    split
    · simp only [setW, emit]
      by_cases hc : c = col
      · subst hc
        simp only [if_pos rfl]
        exact le_max_left _ _
      · simp only [if_neg hc]
        exact le_refl _
    · exact le_refl _

theorem layoutDataRows_widths_mono (ai : Option (List Align))
    (rows : List (List (List Char))) : ∀ (st : LState) (c : Nat),
      st.widths c ≤ (layoutDataRows ai rows st).widths c := by
  induction rows with
  | nil => intro st c; exact le_refl _
  | cons r rs ih =>
    intro st c
    show st.widths c ≤ (layoutDataRows ai rs _).widths c
    exact le_trans (layoutDataCells_widths_mono _ ai _ r 1 st c) (ih _ c)

/-- **C4, amended.** The width discipline the engine actually implements:
every *header-row* `setColumnWidth` (source line 472) is an unconditional
set — for a table whose header covers column `c`, the resulting width of
`c` is exactly `columnWidth` of that header cell, independent of any
previously accumulated width (so a second table's header row does
overwrite, and can shrink, the width accumulated from a first table — see
the counterexample); and every *data-row* assignment (source line 516) is
`max(existing, candidate)`, so during data rows a column width never
decreases. -/
theorem C4_amended_width_discipline :
    (∀ (row : Nat) (cells : List (List Char)) (st : LState) (c : Nat),
      1 ≤ c → c ≤ cells.length →
      (layoutHeaderCells row 1 cells st).widths c =
        get_column_width (cells.getD (c - 1) [])) ∧
    (∀ (ai : Option (List Align)) (rows : List (List (List Char)))
      (st : LState) (c : Nat),
      st.widths c ≤ (layoutDataRows ai rows st).widths c) := by
  constructor
  · intro row cells st c h1 h2
    exact layoutHeaderCells_widths_covered row cells 1 st c h1 (by omega)
  · intro ai rows st c
    exact layoutDataRows_widths_mono ai rows st c

/-- **C4, amended, witness.** Header write at a concrete one-cell header
over a previously wide column (the result is 10, ignoring the prior 26),
and data-row monotonicity at a concrete state. -/
theorem C4_amended_witness :
    (layoutHeaderCells 6 1 ["B".data]
        { row := 6, widths := fun _ => 26, instrs := [] }).widths 1 =
      get_column_width ((["B".data]).getD 0 []) ∧
    ({ row := 7, widths := fun _ => 26, instrs := [] } : LState).widths 1 ≤
      (layoutDataRows none [["x".data]]
        { row := 7, widths := fun _ => 26, instrs := [] }).widths 1 :=
  ⟨C4_amended_width_discipline.1 6 ["B".data]
      { row := 6, widths := fun _ => 26, instrs := [] } 1 (by decide) (by decide),
   C4_amended_width_discipline.2 none [["x".data]]
      { row := 7, widths := fun _ => 26, instrs := [] } 1⟩

/-! ## Alignment lookup for duplicate tables (claim C9) -/

theorem pyIndex_eq_of_first {α : Type} [DecidableEq α] :
    ∀ (l : List α) (i : Nat) (hi : i < l.length),
      (∀ k (hk : k < i), l.get ⟨k, Nat.lt_trans hk hi⟩ ≠ l.get ⟨i, hi⟩) →
      pyIndex l (l.get ⟨i, hi⟩) = i := by
  intro l
  induction l with
  | nil => intro i hi _; exact absurd hi (by simp)
  | cons x xs ih =>
    intro i hi hfirst
    cases i with
    | zero => simp [pyIndex]
    | succ j =>
      have hx : x ≠ (x :: xs).get ⟨j + 1, hi⟩ := hfirst 0 (Nat.succ_pos j)
      show pyIndex (x :: xs) ((x :: xs).get ⟨j + 1, hi⟩) = j + 1
      have hj : j < xs.length := Nat.lt_of_succ_lt_succ hi
      have hget : (x :: xs).get ⟨j + 1, hi⟩ = xs.get ⟨j, hj⟩ := rfl
      unfold pyIndex
      rw [if_neg (by rw [hget] at hx ⊢; exact hx), hget]
      rw [ih j hj ?_]
      intro k hk
      have := hfirst (k + 1) (Nat.succ_lt_succ hk)
      rw [hget] at this
      exact this

/-- **C9.** If one section contains two element-for-element equal tables at
positions `i < j` (with `i` the first position holding that table value),
then the alignment-info lookup the layout performs for *either* table uses
the key `(section index, i)` — `list.index` finds the first equal table —
so the alignment entry recorded for the second table's position `j` is the
one used for neither table, and the tokens recorded for the second table
are never applied to any cell. -/
theorem C9_duplicate_table_alignment (aligns : List ((Nat × Nat) × List Align))
    (sIdx : Nat) (sec : Sect) (i j : Nat)
    (hi : i < sec.tables.length) (hj : j < sec.tables.length) (hij : i < j)
    (heq : sec.tables.get ⟨i, hi⟩ = sec.tables.get ⟨j, hj⟩)
    (hfirst : ∀ k (hk : k < i),
      sec.tables.get ⟨k, Nat.lt_trans hk hi⟩ ≠ sec.tables.get ⟨i, hi⟩) :
    usedAlignInfo aligns sIdx sec (sec.tables.get ⟨j, hj⟩) =
      aligns.lookup (sIdx, i) ∧
    usedAlignInfo aligns sIdx sec (sec.tables.get ⟨i, hi⟩) =
      aligns.lookup (sIdx, i) := by
  have hidx : pyIndex sec.tables (sec.tables.get ⟨i, hi⟩) = i :=
    pyIndex_eq_of_first sec.tables i hi hfirst
  constructor
  · unfold usedAlignInfo
    rw [← heq, hidx]
  · unfold usedAlignInfo
    rw [hidx]

/-- **C9, witness.** A concrete section holding two equal tables whose
separator rows recorded different alignments (`center` at index 0, `right`
at index 1): both tables resolve to the entry at index 0, i.e. `[center]`. -/
theorem C9_duplicate_table_alignment_witness :
    usedAlignInfo [((0, 0), [Align.center]), ((0, 1), [Align.right])] 0
        ⟨"H".data, 1, [], [], [[["A".data], ["x".data]], [["A".data], ["x".data]]],
          [.table [["A".data], ["x".data]], .table [["A".data], ["x".data]]]⟩
        ([["A".data], ["x".data]]) = some [Align.center] := by
  have h := (C9_duplicate_table_alignment
    [((0, 0), [Align.center]), ((0, 1), [Align.right])] 0
    ⟨"H".data, 1, [], [], [[["A".data], ["x".data]], [["A".data], ["x".data]]],
      [.table [["A".data], ["x".data]], .table [["A".data], ["x".data]]]⟩
    0 1 (by decide) (by decide) (by decide) (by decide)
    (fun k hk => absurd hk (Nat.not_lt_zero k))).1
  exact h.trans (by decide)

/-! ## Row-cursor monotonicity (claim C8) -/

/-- Layout-state well-formedness: the cursor is at least 1, the rows
targeted so far form a non-decreasing sequence, and every targeted row
lies between 1 and the cursor. -/
def WFL (st : LState) : Prop :=
  1 ≤ st.row ∧ List.Chain' (· ≤ ·) (rowsOf st.instrs) ∧
  ∀ r ∈ rowsOf st.instrs, 1 ≤ r ∧ r ≤ st.row

theorem rowsOf_append (l1 l2 : List Instr) :
    rowsOf (l1 ++ l2) = rowsOf l1 ++ rowsOf l2 :=
  List.filterMap_append l1 l2 rowOfI

theorem WFL_snoc {st : LState} (h : WFL st) (i : Instr)
    (hrow : rowOfI i = none ∨ rowOfI i = some st.row) :
    WFL { st with instrs := st.instrs ++ [i] } := by
  obtain ⟨h1, h2, h3⟩ := h
  have hrows : rowsOf (st.instrs ++ [i]) = rowsOf st.instrs ++ rowsOf [i] :=
    rowsOf_append _ _
  cases hrow with
  | inl hn =>
    have : rowsOf [i] = [] := by simp [rowsOf, hn]
    refine ⟨h1, ?_, ?_⟩ <;> rw [hrows, this, List.append_nil]
    · exact h2
    · exact h3
  | inr hs =>
    have hone : rowsOf [i] = [st.row] := by simp [rowsOf, hs]
    refine ⟨h1, ?_, ?_⟩
    · rw [hrows, hone, List.chain'_append]
      refine ⟨h2, List.chain'_singleton _, ?_⟩
      intro x hx y hy
      simp only [List.head?_cons, Option.mem_def, Option.some.injEq] at hy
      subst hy
      exact (h3 x (List.mem_of_getLast?_eq_some hx)).2
    · rw [hrows, hone]
      intro r hr
      rcases List.mem_append.1 hr with hr | hr
      · exact h3 r hr
      · rcases List.mem_singleton.1 hr with rfl
        exact ⟨h1, le_refl _⟩

theorem WFL_emit {st : LState} (h : WFL st) (i : Instr)
    (hrow : rowOfI i = none ∨ rowOfI i = some st.row) : WFL (emit st i) :=
  WFL_snoc h i hrow

theorem WFL_setW {st : LState} (h : WFL st) (c : Nat) (w : ℚ) (hdr : Bool) :
    WFL (setW st c w hdr) := by
  have := WFL_snoc h (.colW c w hdr) (Or.inl rfl)
  exact this

theorem WFL_bump {st : LState} (h : WFL st) : WFL { st with row := st.row + 1 } := by
  obtain ⟨h1, h2, h3⟩ := h
  exact ⟨Nat.le_succ_of_le h1, h2,
    fun r hr => ⟨(h3 r hr).1, Nat.le_succ_of_le (h3 r hr).2⟩⟩

theorem emit_row (st : LState) (i : Instr) : (emit st i).row = st.row := rfl

theorem setW_row (st : LState) (c : Nat) (w : ℚ) (hdr : Bool) :
    (setW st c w hdr).row = st.row := rfl

/-- Generic fold preservation. -/
theorem foldl_pres {σ α : Type} (P : σ → Prop) (f : σ → α → σ)
    (hf : ∀ st x, P st → P (f st x)) :
    ∀ (l : List α) (st : σ), P st → P (l.foldl f st) := by
  intro l
  induction l with
  | nil => intro st h; exact h
  | cons x xs ih => intro st h; exact ih (f st x) (hf st x h)

theorem WFL_layoutHeaderCells (row : Nat) (cells : List (List Char)) :
    ∀ (col : Nat) (st : LState), WFL st → st.row = row →
      WFL (layoutHeaderCells row col cells st) ∧
        (layoutHeaderCells row col cells st).row = row := by
  induction cells with
  | nil => intro col st h hr; exact ⟨h, hr⟩
  | cons v rest ih =>
    intro col st h hr
    refine ih (col + 1) _ ?_ ?_
    · exact WFL_setW (WFL_emit h _ (Or.inr (by simp [rowOfI, hr]))) _ _ _
    · rw [setW_row, emit_row, hr]

theorem WFL_layoutDataCells (row : Nat) (ai : Option (List Align)) (n : Nat)
    (cells : List (List Char)) : ∀ (col : Nat) (st : LState), WFL st → st.row = row →
      WFL (layoutDataCells row ai n col cells st) ∧
        (layoutDataCells row ai n col cells st).row = row := by
  induction cells with
  | nil => intro col st h hr; exact ⟨h, hr⟩
  | cons v rest ih =>
    intro col st h hr
    simp only [layoutDataCells]
    split
    · refine ih (col + 1) _ ?_ ?_
      · exact WFL_setW (WFL_emit (WFL_emit h _ (Or.inr (by simp [rowOfI, hr])))
          _ (Or.inr (by simp [rowOfI, emit_row, hr]))) _ _ _
      · rw [setW_row, emit_row, emit_row, hr]
    · exact ih (col + 1) st h hr

theorem WFL_layoutDataRows (ai : Option (List Align)) (rows : List (List (List Char))) :
    ∀ (st : LState), WFL st → WFL (layoutDataRows ai rows st) := by
  induction rows with
  | nil => intro st h; exact h
  | cons r rs ih =>
    intro st h
    show WFL (layoutDataRows ai rs _)
    refine ih _ ?_
    exact WFL_bump (WFL_layoutDataCells st.row ai r.length r 1 st h rfl).1

theorem WFL_layoutTable (aligns : List ((Nat × Nat) × List Align)) (sIdx : Nat)
    (sec : Sect) (st : LState) (t : List (List (List Char))) (h : WFL st) :
    WFL (layoutTable aligns sIdx sec st t) := by
  cases t with
  | nil => exact h
  | cons hd tl =>
    show WFL { layoutDataRows _ tl _ with row := _ + 1 }
    exact WFL_bump (WFL_layoutDataRows _ tl _
      (WFL_bump (WFL_layoutHeaderCells st.row hd 1 st h rfl).1))

theorem WFL_layoutParagraph (st : LState) (p : List Char) (h : WFL st) :
    WFL (layoutParagraph st p) := by
  unfold layoutParagraph
  split
  · split
    · exact WFL_bump (WFL_emit (WFL_emit h _ (Or.inr (by simp [rowOfI]))) _
        (Or.inr (by simp [rowOfI, emit_row])))
    · exact WFL_bump (WFL_emit h _ (Or.inr (by simp [rowOfI])))
  · exact h

theorem WFL_layoutListBlock (st : LState) (items : List (Nat × List Char)) (h : WFL st) :
    WFL (layoutListBlock st items) := by
  unfold layoutListBlock
  refine WFL_bump (foldl_pres WFL _ ?_ items st h)
  intro st2 it h2
  exact WFL_bump (WFL_emit h2 _ (Or.inr (by simp [rowOfI])))

theorem WFL_layoutSection (aligns : List ((Nat × Nat) × List Align)) (sIdx : Nat)
    (st : LState) (sec : Sect) (h : WFL st) : WFL (layoutSection aligns sIdx st sec) := by
  unfold layoutSection
  refine foldl_pres WFL _ (fun st2 t h2 => WFL_layoutTable aligns sIdx sec st2 t h2)
    sec.tables _ ?_
  refine foldl_pres WFL _ (fun st2 l h2 => WFL_layoutListBlock st2 l h2) sec.lists _ ?_
  refine foldl_pres WFL _ (fun st2 p h2 => WFL_layoutParagraph st2 p h2) sec.paragraphs _ ?_
  exact WFL_bump (WFL_emit (WFL_emit h _ (Or.inr (by simp [rowOfI]))) _
    (Or.inr (by simp [rowOfI, emit_row])))

theorem WFL_create_excel (doc : List Sect) (aligns : List ((Nat × Nat) × List Align)) :
    WFL (create_excel doc aligns) := by
  unfold create_excel
  refine foldl_pres WFL _ (fun st p h => WFL_layoutSection aligns p.1 st p.2 h)
    doc.enum initL ?_
  exact ⟨le_refl 1, List.chain'_nil, by intro r hr; exact absurd hr (by simp [initL, rowsOf])⟩

/-- **C8.** For every document and alignment map, the layout engine's row
cursor starts at 1 and is never rewound: the rows targeted by cell-value,
cell-alignment and row-height writes form a non-decreasing sequence in
emission order, every targeted row is at least 1 and at most the final
cursor position, and the final cursor is at least 1. -/
theorem C8_row_cursor_monotone (doc : List Sect)
    (aligns : List ((Nat × Nat) × List Align)) :
    initL.row = 1 ∧
    List.Chain' (· ≤ ·) (rowsOf (create_excel doc aligns).instrs) ∧
    (∀ r ∈ rowsOf (create_excel doc aligns).instrs,
      1 ≤ r ∧ r ≤ (create_excel doc aligns).row) ∧
    1 ≤ (create_excel doc aligns).row := by
  obtain ⟨h1, h2, h3⟩ := WFL_create_excel doc aligns
  exact ⟨rfl, h2, h3, h1⟩

/-- **C8, witness.** The membership clause at a concrete one-section
document: row 1 is targeted and lies between 1 and the final cursor. -/
theorem C8_row_cursor_monotone_witness :
    1 ≤ (1 : Nat) ∧
    1 ≤ (create_excel [⟨"H".data, 1, [], [], [], []⟩] []).row :=
  ⟨((C8_row_cursor_monotone [⟨"H".data, 1, [], [], [], []⟩] []).2.2.1 1
      (by decide)).1,
   ((C8_row_cursor_monotone [⟨"H".data, 1, [], [], [], []⟩] []).2.2.1 1
      (by decide)).2⟩

/-! ## Right-trimming and stored-text invariants (claim C10) -/

/-- The string's last character is whitespace. -/
def endsWs (cs : List Char) : Bool :=
  match cs.getLast? with
  | some c => pyIsSpace c
  | none => false

theorem dropWhile_append_all {p : Char → Bool} :
    ∀ (l1 l2 : List Char), (∀ c ∈ l1, p c = true) →
      List.dropWhile p (l1 ++ l2) = List.dropWhile p l2 := by
  intro l1
  induction l1 with
  | nil => intro l2 _; rfl
  | cons c l1' ih =>
    intro l2 hall
    rw [List.cons_append, List.dropWhile_cons, hall c (List.mem_cons_self c l1'),
      if_pos rfl]
    exact ih l2 (fun d hd => hall d (List.mem_cons_of_mem _ hd))

theorem rstrip_append_ws (raw tr : List Char) (h : ∀ c ∈ tr, pyIsSpace c = true) :
    rstrip (raw ++ tr) = rstrip raw := by
  unfold rstrip
  rw [List.reverse_append,
    dropWhile_append_all tr.reverse raw.reverse (fun c hc => h c (List.mem_reverse.1 hc))]

theorem head?_dropWhile_false {p : Char → Bool} :
    ∀ (l : List Char) (c : Char), (List.dropWhile p l).head? = some c → p c = false := by
  intro l
  induction l with
  | nil => intro c h; exact absurd h (by simp)
  | cons a l' ih =>
    intro c h
    rw [List.dropWhile_cons] at h
    cases hp : p a with
    | true =>
      rw [hp, if_pos rfl] at h
      exact ih c h
    | false =>
      rw [hp] at h
      simp only [Bool.false_eq_true, if_false, List.head?_cons, Option.some_inj] at h
      subst h
      exact hp

theorem endsWs_rstrip (cs : List Char) : endsWs (rstrip cs) = false := by
  unfold endsWs rstrip
  rw [List.getLast?_reverse]
  cases h : (cs.reverse.dropWhile pyIsSpace).head? with
  | none => rfl
  | some c => exact head?_dropWhile_false _ c h

theorem mem_rstrip {cs : List Char} {c : Char} (h : c ∈ rstrip cs) : c ∈ cs := by
  unfold rstrip at h
  rw [List.mem_reverse] at h
  exact List.mem_reverse.1 ((List.dropWhile_suffix pyIsSpace).mem h)

theorem contains_false_iff (cs : List Char) (c : Char) :
    cs.contains c = false ↔ c ∉ cs := by
  constructor
  · intro h hmem
    have : cs.contains c = true :=
      List.contains_iff_exists_mem_beq.2 ⟨c, hmem, by simp⟩
    rw [h] at this
    exact Bool.false_ne_true this
  · intro h
    by_contra hne
    have h2 : cs.contains c = true := by
      revert hne
      cases cs.contains c <;> simp
    obtain ⟨b, hb, hbeq⟩ := List.contains_iff_exists_mem_beq.1 h2
    exact h ((beq_iff_eq.1 hbeq) ▸ hb)

theorem contains_rstrip_false {raw : List Char} {c : Char}
    (h : raw.contains c = false) : (rstrip raw).contains c = false :=
  (contains_false_iff _ _).2 (fun hm => (contains_false_iff _ _).1 h (mem_rstrip hm))

theorem getLast?_dropWhile_ne_nil {p : Char → Bool} (l : List Char)
    (h : List.dropWhile p l ≠ []) :
    (List.dropWhile p l).getLast? = l.getLast? := by
  conv_rhs => rw [← List.takeWhile_append_dropWhile (p := p) (l := l)]
  rw [List.getLast?_append]
  obtain ⟨x, hx⟩ := Option.isSome_iff_exists.1 (List.getLast?_isSome.2 h)
  rw [hx]
  rfl

/-- Unfolding equation for `headingMatch`. -/
theorem headingMatch_eq (line : List Char) :
    headingMatch line =
      if 1 ≤ (line.takeWhile (fun c => c == '#')).length ∧
          (line.takeWhile (fun c => c == '#')).length ≤ 6 ∧
          headIsSpace (line.dropWhile (fun c => c == '#')) = true ∧
          (line.dropWhile (fun c => c == '#')).dropWhile pyIsSpace ≠ [] ∧
          ((line.dropWhile (fun c => c == '#')).dropWhile pyIsSpace).contains '\n' = false
      then some ((line.takeWhile (fun c => c == '#')).length,
        (line.dropWhile (fun c => c == '#')).dropWhile pyIsSpace)
      else none := rfl

/-- Unfolding equation for `listMatch`. -/
theorem listMatch_eq (line : List Char) :
    listMatch line =
      (match line.dropWhile pyIsSpace with
      | [] => none
      | c :: rest2 =>
        if (c = '-' ∨ c = '*' ∨ c = '+') ∧ headIsSpace rest2 = true ∧
            rest2.dropWhile pyIsSpace ≠ [] ∧
            (rest2.dropWhile pyIsSpace).contains '\n' = false
        then some ((line.takeWhile pyIsSpace).length, rest2.dropWhile pyIsSpace)
        else none) := rfl

theorem headingMatch_text_good {line : List Char} {lvl : Nat} {text : List Char}
    (h : headingMatch line = some (lvl, text)) (hline : endsWs line = false) :
    text ≠ [] ∧ endsWs text = false ∧ text.contains '\n' = false := by
  rw [headingMatch_eq] at h
  split at h
  · rename_i hcond
    obtain ⟨h1, h2, h3, h4, h5⟩ := hcond
    simp only [Option.some_inj, Prod.mk.injEq] at h
    obtain ⟨hlvl, htext⟩ := h
    subst htext
    refine ⟨h4, ?_, h5⟩
    have hrest : line.dropWhile (fun c => c == '#') ≠ [] := by
      intro hr
      apply h4
      rw [hr]
      rfl
    unfold endsWs at hline ⊢
    rw [getLast?_dropWhile_ne_nil _ h4, getLast?_dropWhile_ne_nil _ hrest]
    exact hline
  · exact absurd h (by simp)

theorem listMatch_text_good {line : List Char} {ind : Nat} {text : List Char}
    (h : listMatch line = some (ind, text)) (hline : endsWs line = false) :
    text ≠ [] ∧ endsWs text = false ∧ text.contains '\n' = false := by
  rw [listMatch_eq] at h
  cases hr : line.dropWhile pyIsSpace with
  | nil =>
    rw [hr] at h
    exact absurd h (by simp)
  | cons c rest2 =>
    rw [hr] at h
    have h' : (if (c = '-' ∨ c = '*' ∨ c = '+') ∧ headIsSpace rest2 = true ∧
          rest2.dropWhile pyIsSpace ≠ [] ∧
          (rest2.dropWhile pyIsSpace).contains '\n' = false
        then some ((line.takeWhile pyIsSpace).length, rest2.dropWhile pyIsSpace)
        else none) = some (ind, text) := h
    clear h
    rename' h' => h
    split at h
    · rename_i hcond
      obtain ⟨h1, h2, h3, h4⟩ := hcond
      simp only [Option.some_inj, Prod.mk.injEq] at h
      obtain ⟨hind, htext⟩ := h
      subst htext
      refine ⟨h3, ?_, h4⟩
      have hr2 : rest2 ≠ [] := by
        intro hrr
        apply h3
        rw [hrr]
        rfl
      unfold endsWs at hline ⊢
      rw [getLast?_dropWhile_ne_nil _ h3]
      have hlast : rest2.getLast? = line.getLast? := by
        conv_rhs => rw [← List.takeWhile_append_dropWhile (p := pyIsSpace) (l := line)]
        rw [hr, List.getLast?_append]
        cases rest2 with
        | nil => exact absurd rfl hr2
        | cons y t =>
          rw [List.getLast?_cons_cons]
          obtain ⟨x, hx⟩ :=
            Option.isSome_iff_exists.1 (List.getLast?_isSome.2 (List.cons_ne_nil y t))
          rw [hx]
          rfl
      rw [hlast]
      exact hline
    · exact absurd h (by simp)

theorem splitOnChar_ne_nil (sep : Char) (cs : List Char) : splitOnChar sep cs ≠ [] := by
  cases cs with
  | nil => exact List.cons_ne_nil _ _
  | cons c rest =>
    show (match splitOnChar sep rest with
      | [] => [[]]
      | p :: ps => if c = sep then [] :: p :: ps else (c :: p) :: ps) ≠ []
    cases splitOnChar sep rest with
    | nil => exact List.cons_ne_nil _ _
    | cons p ps =>
      show (if c = sep then [] :: p :: ps else (c :: p) :: ps) ≠ []
      split
      · exact List.cons_ne_nil _ _
      · exact List.cons_ne_nil _ _

theorem splitOnChar_no_sep (sep : Char) :
    ∀ (cs : List Char), cs.contains sep = false → splitOnChar sep cs = [cs] := by
  intro cs
  induction cs with
  | nil => intro _; rfl
  | cons c rest ih =>
    intro h
    simp only [List.contains_cons, Bool.or_eq_false_iff, beq_eq_false_iff_ne] at h
    show (match splitOnChar sep rest with
      | [] => [[]]
      | p :: ps => if c = sep then [] :: p :: ps else (c :: p) :: ps) = [c :: rest]
    rw [ih h.2]
    show (if c = sep then [] :: rest :: [] else (c :: rest) :: []) = [c :: rest]
    rw [if_neg (fun hc => h.1 hc.symm)]

theorem splitOnChar_append_sep (sep : Char) :
    ∀ (l rest : List Char), l.contains sep = false →
      splitOnChar sep (l ++ sep :: rest) = l :: splitOnChar sep rest := by
  intro l
  induction l with
  | nil =>
    intro rest _
    show (match splitOnChar sep rest with
      | [] => [[]]
      | p :: ps => if sep = sep then [] :: p :: ps else (sep :: p) :: ps) =
      [] :: splitOnChar sep rest
    cases h2 : splitOnChar sep rest with
    | nil => exact absurd h2 (splitOnChar_ne_nil sep rest)
    | cons p ps =>
      show (if sep = sep then [] :: p :: ps else (sep :: p) :: ps) = [] :: p :: ps
      rw [if_pos rfl]
  | cons c l' ih =>
    intro rest h
    simp only [List.contains_cons, Bool.or_eq_false_iff, beq_eq_false_iff_ne] at h
    show (match splitOnChar sep (l' ++ sep :: rest) with
      | [] => [[]]
      | p :: ps => if c = sep then [] :: p :: ps else (c :: p) :: ps) =
      (c :: l') :: splitOnChar sep rest
    rw [ih rest h.2]
    show (if c = sep then [] :: l' :: splitOnChar sep rest
      else (c :: l') :: splitOnChar sep rest) = (c :: l') :: splitOnChar sep rest
    rw [if_neg (fun hc => h.1 hc.symm)]

theorem splitNl_joinNl :
    ∀ (pls : List (List Char)), pls ≠ [] →
      (∀ pl ∈ pls, pl.contains '\n' = false) → splitNl (joinNl pls) = pls := by
  intro pls
  induction pls with
  | nil => intro h _; exact absurd rfl h
  | cons l ls ih =>
    intro _ hall
    cases ls with
    | nil => exact splitOnChar_no_sep '\n' l (hall l (List.mem_cons_self l []))
    | cons l2 ls2 =>
      show splitOnChar '\n' (l ++ '\n' :: joinNl (l2 :: ls2)) = l :: (l2 :: ls2)
      rw [splitOnChar_append_sep '\n' l _ (hall l (List.mem_cons_self l _))]
      have := ih (List.cons_ne_nil l2 ls2)
        (fun pl hpl => hall pl (List.mem_cons_of_mem _ hpl))
      unfold splitNl at this
      rw [this]

/-- A nonempty string with no trailing whitespace. -/
def GoodText (cs : List Char) : Prop := cs ≠ [] ∧ endsWs cs = false

/-- Stored-text invariant of a section: the heading, every line of every
stored paragraph, and every list item are nonempty without trailing
whitespace; table cells (which may be empty) have no trailing whitespace. -/
def SecG (s : Sect) : Prop :=
  GoodText s.heading ∧
  (∀ p ∈ s.paragraphs, ∀ seg ∈ splitNl p, GoodText seg) ∧
  (∀ lb ∈ s.lists, ∀ it ∈ lb, GoodText it.2) ∧
  (∀ t ∈ s.tables, ∀ r ∈ t, ∀ cell ∈ r, endsWs cell = false)

/-- Stored-text invariant of the whole parser state. -/
def StateG (st : PState) : Prop :=
  (∀ s ∈ st.done, SecG s) ∧ (∀ s ∈ st.current.toList, SecG s) ∧
  (∀ pl ∈ st.paraLines, GoodText pl ∧ pl.contains '\n' = false) ∧
  (∀ it ∈ st.curList, GoodText it.2) ∧
  (∀ r ∈ st.curTable, ∀ cell ∈ r, endsWs cell = false)

theorem SecG_addPara {s : Sect} (h : SecG s) {p : List Char}
    (hp : ∀ seg ∈ splitNl p, GoodText seg) : SecG (s.addPara p) := by
  obtain ⟨h1, h2, h3, h4⟩ := h
  refine ⟨h1, ?_, h3, h4⟩
  intro q hq
  rcases List.mem_append.1 hq with hq | hq
  · exact h2 q hq
  · rcases List.mem_singleton.1 hq with rfl
    exact hp

theorem SecG_addList {s : Sect} (h : SecG s) {l : List (Nat × List Char)}
    (hl : ∀ it ∈ l, GoodText it.2) : SecG (s.addList l) := by
  obtain ⟨h1, h2, h3, h4⟩ := h
  refine ⟨h1, h2, ?_, h4⟩
  intro lb hlb
  rcases List.mem_append.1 hlb with hlb | hlb
  · exact h3 lb hlb
  · rcases List.mem_singleton.1 hlb with rfl
    exact hl

theorem SecG_addTable {s : Sect} (h : SecG s) {t : List (List (List Char))}
    (ht : ∀ r ∈ t, ∀ cell ∈ r, endsWs cell = false) : SecG (s.addTable t) := by
  obtain ⟨h1, h2, h3, h4⟩ := h
  refine ⟨h1, h2, h3, ?_⟩
  intro t2 ht2
  rcases List.mem_append.1 ht2 with ht2 | ht2
  · exact h4 t2 ht2
  · rcases List.mem_singleton.1 ht2 with rfl
    exact ht

theorem StateG_flushPara {st : PState} (h : StateG st) : StateG (flushPara st) := by
  obtain ⟨h1, h2, h3, h4, h5⟩ := h
  unfold flushPara
  split
  · rename_i hne
    have hpara : ∀ seg ∈ splitNl (joinNl st.paraLines), GoodText seg := by
      have heq := splitNl_joinNl st.paraLines hne (fun pl hpl => (h3 pl hpl).2)
      intro seg hseg
      rw [heq] at hseg
      exact (h3 seg hseg).1
    cases hcur : st.current with
    | none => exact ⟨h1, by simp, by simp, h4, h5⟩
    | some s =>
      refine ⟨h1, ?_, by simp, h4, h5⟩
      intro s2 hs2
      simp only [Option.toList_some, List.mem_singleton] at hs2
      subst hs2
      exact SecG_addPara (h2 s (by simp [hcur])) hpara
  · exact ⟨h1, h2, h3, h4, h5⟩

theorem StateG_flushListG {st : PState} (h : StateG st) : StateG (flushListG st) := by
  obtain ⟨h1, h2, h3, h4, h5⟩ := h
  unfold flushListG
  split
  · cases hcur : st.current with
    | none => exact ⟨h1, by simp, h3, by simp, h5⟩
    | some s =>
      refine ⟨h1, ?_, h3, by simp, h5⟩
      intro s2 hs2
      simp only [Option.toList_some, List.mem_singleton] at hs2
      subst hs2
      exact SecG_addList (h2 s (by simp [hcur])) h4
  · exact ⟨h1, h2, h3, h4, h5⟩

theorem StateG_flushListT {st : PState} (h : StateG st) : StateG (flushListT st) := by
  obtain ⟨h1, h2, h3, h4, h5⟩ := h
  unfold flushListT
  cases hcur : st.current with
  | none => exact ⟨h1, by simp, h3, by simp, h5⟩
  | some s =>
    refine ⟨h1, ?_, h3, by simp, h5⟩
    simp only []
    split
    · intro s2 hs2
      simp only [Option.toList_some, List.mem_singleton] at hs2
      subst hs2
      exact SecG_addList (h2 s (by simp [hcur])) h4
    · intro s2 hs2
      simp only [Option.toList_some, List.mem_singleton] at hs2
      subst hs2
      exact h2 _ (by simp [hcur])

theorem StateG_flushTableG {st : PState} (h : StateG st) : StateG (flushTableG st) := by
  obtain ⟨h1, h2, h3, h4, h5⟩ := h
  unfold flushTableG
  split
  · cases hcur : st.current with
    | none => exact ⟨h1, by simp, h3, h4, by simp⟩
    | some s =>
      refine ⟨h1, ?_, h3, h4, by simp⟩
      intro s2 hs2
      simp only [Option.toList_some, List.mem_singleton] at hs2
      subst hs2
      exact SecG_addTable (h2 s (by simp [hcur])) h5
  · exact ⟨h1, h2, h3, h4, h5⟩

theorem StateG_flushTableT {st : PState} (h : StateG st) : StateG (flushTableT st) := by
  obtain ⟨h1, h2, h3, h4, h5⟩ := h
  unfold flushTableT
  split
  · cases hcur : st.current with
    | none => exact ⟨h1, by simp, h3, h4, by simp⟩
    | some s =>
      refine ⟨h1, ?_, h3, h4, by simp⟩
      simp only []
      split
      · intro s2 hs2
        simp only [Option.toList_some, List.mem_singleton] at hs2
        subst hs2
        exact SecG_addTable (h2 s (by simp [hcur])) h5
      · intro s2 hs2
        simp only [Option.toList_some, List.mem_singleton] at hs2
        subst hs2
        exact h2 _ (by simp [hcur])
  · exact ⟨h1, h2, h3, h4, h5⟩

theorem hasContent_ne_nil {cs : List Char} (h : hasContent cs = true) : cs ≠ [] := by
  intro hnil
  rw [hnil] at h
  exact Bool.false_ne_true h

theorem endsWs_cells {line : List Char} :
    ∀ cell ∈ splitCells line, endsWs cell = false := by
  intro cell hc
  unfold splitCells at hc
  obtain ⟨x, _, hx⟩ := List.mem_map.1 hc
  rw [← hx]
  exact endsWs_rstrip _

/-- The state invariant is preserved by one classification step, for an
input line free of embedded newlines. -/
theorem StateG_step (st : PState) (raw : List Char)
    (hnl : raw.contains '\n' = false) (h : StateG st) : StateG (step st raw) := by
  have hline : endsWs (rstrip raw) = false := endsWs_rstrip raw
  have hlnl : (rstrip raw).contains '\n' = false := contains_rstrip_false hnl
  refine stepLine_preserve StateG (rstrip raw) ?_ ?_ ?_ ?_ ?_ ?_ ?_ ?_ ?_ ?_ ?_ ?_ st h
  · exact fun _ h => StateG_flushPara h
  · exact fun _ h => StateG_flushListG h
  · exact fun _ h => StateG_flushListT h
  · exact fun _ h => StateG_flushTableG h
  · exact fun _ h => StateG_flushTableT h
  · intro st2 h2
    obtain ⟨h1, hc, h3, h4, h5⟩ := h2
    unfold openTable
    split
    · exact ⟨h1, hc, h3, h4, h5⟩
    · exact ⟨h1, hc, h3, h4, by simp⟩
  · intro st2 h2
    obtain ⟨h1, hc, h3, h4, h5⟩ := h2
    unfold openList
    split
    · exact ⟨h1, hc, h3, h4, h5⟩
    · exact ⟨h1, hc, h3, by simp, h5⟩
  · intro st2 info h2
    obtain ⟨h1, hc, h3, h4, h5⟩ := h2
    unfold recordAlign
    cases hcur : st2.current with
    | none => exact ⟨h1, hc, h3, h4, h5⟩
    | some s => exact ⟨h1, by simpa [hcur] using hc, h3, h4, h5⟩
  · intro st2 lvl text hmatch h2
    obtain ⟨h1, hc, h3, h4, h5⟩ := h2
    obtain ⟨ht1, ht2, _⟩ := headingMatch_text_good hmatch hline
    refine ⟨?_, ?_, h3, h4, h5⟩
    · intro s hs
      rcases List.mem_append.1 hs with hs | hs
      · exact h1 s hs
      · exact hc s hs
    · intro s hs
      simp only [pushSection, Option.toList_some, List.mem_singleton] at hs
      subst hs
      exact ⟨⟨ht1, ht2⟩, by simp, by simp, by simp⟩
  · intro st2 hcont h2
    obtain ⟨h1, hc, h3, h4, h5⟩ := h2
    refine ⟨h1, hc, ?_, h4, h5⟩
    intro pl hpl
    rcases List.mem_append.1 hpl with hpl | hpl
    · exact h3 pl hpl
    · rcases List.mem_singleton.1 hpl with rfl
      exact ⟨⟨hasContent_ne_nil hcont, hline⟩, hlnl⟩
  · intro st2 _ h2
    obtain ⟨h1, hc, h3, h4, h5⟩ := h2
    refine ⟨h1, hc, h3, h4, ?_⟩
    intro r hr
    rcases List.mem_append.1 hr with hr | hr
    · exact h5 r hr
    · rcases List.mem_singleton.1 hr with rfl
      exact endsWs_cells
  · intro st2 i c hmatch h2
    obtain ⟨h1, hc, h3, h4, h5⟩ := h2
    obtain ⟨ht1, ht2, _⟩ := listMatch_text_good hmatch hline
    refine ⟨h1, hc, h3, ?_, h5⟩
    intro it hit
    rcases List.mem_append.1 hit with hit | hit
    · exact h4 it hit
    · rcases List.mem_singleton.1 hit with rfl
      exact ⟨ht1, ht2⟩

theorem StateG_parse (lines : List (List Char))
    (hnl : ∀ l ∈ lines, l.contains '\n' = false) :
    ∀ s ∈ (parse_markdown lines).1, SecG s := by
  have hfold : StateG (lines.foldl step initState) := by
    induction lines using List.reverseRecOn with
    | nil =>
      exact ⟨by simp [initState], by simp [initState], by simp [initState],
        by simp [initState], by simp [initState]⟩
    | append_singleton ls l ih =>
      rw [List.foldl_append, List.foldl_cons, List.foldl_nil]
      exact StateG_step _ l (hnl l (by simp))
        (ih (fun l2 hl2 => hnl l2 (List.mem_append.2 (Or.inl hl2))))
  have hfin : StateG (finalize (lines.foldl step initState)) :=
    StateG_flushTableG (StateG_flushListG (StateG_flushPara hfold))
  intro s hs
  rcases List.mem_append.1 hs with hs | hs
  · exact hfin.1 s hs
  · exact hfin.2.1 s hs

/-- **C10.** Every input line is right-trimmed before classification —
appending trailing whitespace to a raw line never changes the parser step
taken (in particular, a line whose last non-whitespace character is `|`,
followed by trailing spaces, is still classified as a table row); and for
every newline-free input, no stored heading, paragraph line, list-item
text or table cell ends with whitespace (headings, paragraph lines and
list items are moreover nonempty). -/
theorem C10_right_trimmed :
    (∀ (st : PState) (raw tr : List Char), (∀ c ∈ tr, pyIsSpace c = true) →
      step st (raw ++ tr) = step st raw) ∧
    (∀ raw tr : List Char, (∀ c ∈ tr, pyIsSpace c = true) →
      isTableLine (rstrip (raw ++ tr)) = isTableLine (rstrip raw)) ∧
    (∀ lines : List (List Char), (∀ l ∈ lines, l.contains '\n' = false) →
      ∀ s ∈ (parse_markdown lines).1,
        (s.heading ≠ [] ∧ endsWs s.heading = false) ∧
        (∀ p ∈ s.paragraphs, ∀ seg ∈ splitNl p, seg ≠ [] ∧ endsWs seg = false) ∧
        (∀ lb ∈ s.lists, ∀ it ∈ lb, it.2 ≠ [] ∧ endsWs it.2 = false) ∧
        (∀ t ∈ s.tables, ∀ r ∈ t, ∀ cell ∈ r, endsWs cell = false)) := by
  refine ⟨?_, ?_, ?_⟩
  · intro st raw tr h
    unfold step
    rw [rstrip_append_ws raw tr h]
  · intro raw tr h
    rw [rstrip_append_ws raw tr h]
  · intro lines hnl s hs
    obtain ⟨h1, h2, h3, h4⟩ := StateG_parse lines hnl s hs
    exact ⟨h1, h2, h3, h4⟩

/-- **C10, witness.** Concrete instances: the step on `'| x |  '` (two
trailing spaces) equals the step on `'| x |'`; the trailing-space line is
classified as a table row; and the stored-text invariant at a concrete
parse. -/
theorem C10_right_trimmed_witness :
    step initState ("| x |".data ++ "  ".data) = step initState "| x |".data ∧
    isTableLine (rstrip ("| x |".data ++ "  ".data)) = isTableLine (rstrip "| x |".data) ∧
    (⟨"T".data, 1, [], [], [], []⟩ : Sect).heading ≠ [] :=
  ⟨C10_right_trimmed.1 initState "| x |".data "  ".data (by decide),
   C10_right_trimmed.2.1 "| x |".data "  ".data (by decide),
   ((C10_right_trimmed.2.2 ["# T".data] (by decide)
      ⟨"T".data, 1, [], [], [], []⟩ (by decide)).1).1⟩

/-! ## Dropping content before the first heading (claim C7) -/

/-- Component-wise equality for parser states. -/
theorem PState.ext8 (s t : PState) (h1 : s.done = t.done) (h2 : s.current = t.current)
    (h3 : s.inTable = t.inTable) (h4 : s.curTable = t.curTable)
    (h5 : s.paraLines = t.paraLines) (h6 : s.inList = t.inList)
    (h7 : s.curList = t.curList) (h8 : s.tableAligns = t.tableAligns) : s = t := by
  cases s
  cases t
  simp_all

/-- Invariant linking the "in list" / "in table" flags to their buffers,
holding for every reachable parser state: a closed list buffer is empty,
an open one is nonempty, and a closed table buffer is empty. -/
def Inv (st : PState) : Prop :=
  (st.inList = false → st.curList = []) ∧
  (st.inList = true → st.curList ≠ []) ∧
  (st.inTable = false → st.curTable = [])

theorem Inv_initState : Inv initState :=
  ⟨fun _ => rfl, fun h => absurd h (by simp [initState]), fun _ => rfl⟩

theorem Inv_flushPara {st : PState} (h : Inv st) : Inv (flushPara st) := by
  unfold flushPara
  split
  · exact h
  · exact h

theorem Inv_flushListG {st : PState} (h : Inv st) : Inv (flushListG st) := by
  unfold flushListG
  split
  · exact ⟨fun _ => rfl, fun hff => absurd hff (by simp), h.2.2⟩
  · exact h

theorem Inv_flushListT {st : PState} (h : Inv st) : Inv (flushListT st) :=
  ⟨fun _ => rfl, fun hff => absurd hff (by simp [flushListT]), h.2.2⟩

theorem Inv_flushTableG {st : PState} (h : Inv st) : Inv (flushTableG st) := by
  unfold flushTableG
  split
  · exact ⟨h.1, h.2.1, fun _ => rfl⟩
  · exact h

theorem Inv_flushTableT {st : PState} (h : Inv st) : Inv (flushTableT st) := by
  unfold flushTableT
  split
  · exact ⟨h.1, h.2.1, fun _ => rfl⟩
  · exact h

theorem Inv_openTable {st : PState} (h : Inv st) : Inv (openTable st) := by
  unfold openTable
  split
  · exact h
  · exact ⟨h.1, h.2.1, fun hff => absurd hff (by simp)⟩

theorem Inv_recordAlign {st : PState} (h : Inv st) (info : List Align) :
    Inv (recordAlign st info) := by
  unfold recordAlign
  cases st.current
  · exact h
  · exact h

theorem Inv_pushSection {st : PState} (h : Inv st) (lvl : Nat) (text : List Char) :
    Inv (pushSection st lvl text) :=
  h

theorem Inv_restLine {st : PState} (h : Inv st) (line : List Char) :
    Inv (restLine st line) := by
  unfold restLine
  split
  · exact Inv_flushListG (Inv_flushPara h)
  · split
    · exact h
    · exact h

theorem Inv_stepLine {st : PState} (h : Inv st) (line : List Char) :
    Inv (stepLine st line) := by
  cases h1 : headingMatch line with
  | some p =>
    obtain ⟨lvl, text⟩ := p
    rw [stepLine_heading st h1]
    exact Inv_pushSection (Inv_flushTableG (Inv_flushListG (Inv_flushPara h))) lvl text
  | none =>
    cases h2 : isTableLine line with
    | true =>
      cases h3 : (splitCells line).all isSeparatorCell with
      | true =>
        rw [stepLine_tableSep st h1 h2 h3]
        exact Inv_recordAlign (Inv_openTable (Inv_flushListG (Inv_flushPara h))) _
      | false =>
        rw [stepLine_tableData st h1 h2 h3]
        have h4 := Inv_openTable (Inv_flushListG (Inv_flushPara h))
        have h5 : (openTable (flushListG (flushPara st))).inTable = true := by
          unfold openTable
          split
          · assumption
          · rfl
        exact ⟨h4.1, h4.2.1, fun hff => absurd (h5 ▸ hff) (by simp)⟩
    | false =>
      cases h3 : listMatch line with
      | some p =>
        obtain ⟨indent, content⟩ := p
        rw [stepLine_listItem st h1 h2 h3]
        have h4 := Inv_flushPara (Inv_flushTableT h)
        refine ⟨?_, ?_, ?_⟩
        · intro hl
          have h5 : (openList (flushPara (flushTableT st))).inList = true := by
            unfold openList
            split
            · assumption
            · rfl
          exact absurd (h5 ▸ hl) (by simp)
        · intro _
          simp
        · intro hff
          have h6 : (openList (flushPara (flushTableT st))).inTable =
              (flushPara (flushTableT st)).inTable := by
            unfold openList
            split
            · rfl
            · rfl
          have h7 : (openList (flushPara (flushTableT st))).curTable =
              (flushPara (flushTableT st)).curTable := by
            unfold openList
            split
            · rfl
            · rfl
          rw [h7]
          exact h4.2.2 (h6 ▸ hff)
      | none =>
        cases h4 : st.inList with
        | true =>
          cases h5 : hasContent line with
          | true =>
            cases h6 : bulletStartMatch line with
            | true =>
              rw [stepLine_listCont st h1 h2 h3 h4 h5 h6]
              exact Inv_flushTableT h
            | false =>
              rw [stepLine_listTerm st h1 h2 h3 h4 h5 h6]
              exact Inv_restLine (Inv_flushListT (Inv_flushTableT h)) line
          | false =>
            rw [stepLine_rest st h1 h2 h3 (Or.inr h5)]
            exact Inv_restLine (Inv_flushTableT h) line
        | false =>
          rw [stepLine_rest st h1 h2 h3 (Or.inl h4)]
          exact Inv_restLine (Inv_flushTableT h) line

/-- Two parser states that agree on every component except possibly the
`inTable` flag, the disagreement being allowed only while the table buffer
is empty.  Such states are observationally equivalent for the rest of the
parse. -/
def StEq (s t : PState) : Prop :=
  s.done = t.done ∧ s.current = t.current ∧ s.paraLines = t.paraLines ∧
  s.inList = t.inList ∧ s.curList = t.curList ∧ s.curTable = t.curTable ∧
  s.tableAligns = t.tableAligns ∧ (s.inTable = t.inTable ∨ s.curTable = [])

theorem StEq_refl (s : PState) : StEq s s :=
  ⟨rfl, rfl, rfl, rfl, rfl, rfl, rfl, Or.inl rfl⟩

theorem StEq_symm {s t : PState} (h : StEq s t) : StEq t s := by
  obtain ⟨h1, h2, h3, h4, h5, h6, h7, h8⟩ := h
  exact ⟨h1.symm, h2.symm, h3.symm, h4.symm, h5.symm, h6.symm, h7.symm,
    h8.imp Eq.symm (fun hc => h6 ▸ hc)⟩

/-- Eta-style lemma: rewriting an already-empty table buffer is a no-op. -/
theorem set_curTable_nil {st : PState} (h : st.curTable = []) :
    { st with curTable := [] } = st := by
  cases st
  simp_all

theorem flushPara_setTable (st : PState) (b : Bool) :
    flushPara { st with inTable := b } = { flushPara st with inTable := b } := by
  cases st with
  | mk d c it ct pl il cl ta =>
    unfold flushPara
    by_cases hpl : pl ≠ []
    · rw [if_pos hpl, if_pos hpl]
    · rw [if_neg hpl, if_neg hpl]

theorem flushListG_setTable (st : PState) (b : Bool) :
    flushListG { st with inTable := b } = { flushListG st with inTable := b } := by
  cases st with
  | mk d c it ct pl il cl ta =>
    unfold flushListG
    by_cases hcl : il = true ∧ cl ≠ []
    · rw [if_pos hcl, if_pos hcl]
    · rw [if_neg hcl, if_neg hcl]

theorem pushSection_setTable (st : PState) (b : Bool) (lvl : Nat) (text : List Char) :
    pushSection { st with inTable := b } lvl text =
      { pushSection st lvl text with inTable := b } := rfl

theorem flushPara_curTable (st : PState) : (flushPara st).curTable = st.curTable := by
  unfold flushPara
  split
  · rfl
  · rfl

theorem flushListG_curTable (st : PState) : (flushListG st).curTable = st.curTable := by
  unfold flushListG
  split
  · rfl
  · rfl

theorem flushPara_inTable (st : PState) : (flushPara st).inTable = st.inTable := by
  unfold flushPara
  split
  · rfl
  · rfl

theorem flushListG_inTable (st : PState) : (flushListG st).inTable = st.inTable := by
  unfold flushListG
  split
  · rfl
  · rfl

theorem flushTableG_of_curTable_nil {st : PState} (h : st.curTable = []) :
    flushTableG st = st := by
  unfold flushTableG
  rw [if_neg (fun hc => hc.2 h)]

/-- Under an empty table buffer, closing a spuriously open table flag is a
no-op up to that flag. -/
theorem flushTableT_collapse {st : PState} (hst : st.inTable = false)
    (hct : st.curTable = []) :
    flushTableT { st with inTable := true } = st := by
  cases st with
  | mk d c it ct pl il cl ta =>
    have h1 : it = false := hst
    have h2 : ct = [] := hct
    subst h1
    subst h2
    unfold flushTableT
    rw [if_pos rfl]
    cases c with
    | none => rfl
    | some s => simp

theorem openTable_collapse {st : PState} (hst : st.inTable = false)
    (hct : st.curTable = []) :
    openTable { st with inTable := true } = openTable st := by
  cases st with
  | mk d c it ct pl il cl ta =>
    have h1 : it = false := hst
    have h2 : ct = [] := hct
    subst h1
    subst h2
    unfold openTable
    rw [if_pos rfl, if_neg (by simp)]

/-- The step taken from a state whose table buffer is empty and whose
table flag is closed coincides (up to the flag) with the step taken from
the same state with the flag spuriously open. -/
theorem stepLine_true_false (st : PState) (line : List Char)
    (hst : st.inTable = false) (hct : st.curTable = []) :
    StEq (stepLine { st with inTable := true } line) (stepLine st line) := by
  cases h1 : headingMatch line with
  | some p =>
    obtain ⟨lvl, text⟩ := p
    rw [stepLine_heading _ h1, stepLine_heading _ h1]
    rw [flushPara_setTable, flushListG_setTable]
    rw [flushTableG_of_curTable_nil
      (show ({ flushListG (flushPara st) with inTable := true } : PState).curTable = [] by
        show (flushListG (flushPara st)).curTable = []
        rw [flushListG_curTable, flushPara_curTable]
        exact hct)]
    rw [flushTableG_of_curTable_nil
      (by rw [flushListG_curTable, flushPara_curTable]; exact hct)]
    rw [pushSection_setTable]
    refine ⟨rfl, rfl, rfl, rfl, rfl, rfl, rfl, Or.inr ?_⟩
    show (flushListG (flushPara st)).curTable = []
    rw [flushListG_curTable, flushPara_curTable]
    exact hct
  | none =>
    cases h2 : isTableLine line with
    | true =>
      have hopen : openTable (flushListG (flushPara { st with inTable := true })) =
          openTable (flushListG (flushPara st)) := by
        rw [flushPara_setTable, flushListG_setTable]
        exact openTable_collapse
          (by rw [flushListG_inTable, flushPara_inTable]; exact hst)
          (by rw [flushListG_curTable, flushPara_curTable]; exact hct)
      cases h3 : (splitCells line).all isSeparatorCell with
      | true =>
        rw [stepLine_tableSep _ h1 h2 h3, stepLine_tableSep _ h1 h2 h3, hopen]
        exact StEq_refl _
      | false =>
        rw [stepLine_tableData _ h1 h2 h3, stepLine_tableData _ h1 h2 h3, hopen]
        exact StEq_refl _
    | false =>
      have helse : ∀ s2 : PState, headingMatch line = none → isTableLine line = false →
          stepLine s2 line = stepAfterTable (flushTableT s2) line := by
        intro s2 ha hb
        simp only [stepLine, ha, hb, Bool.false_eq_true, if_false]
      rw [helse _ h1 h2, helse _ h1 h2, flushTableT_collapse hst hct,
        flushTableT_of_not_inTable hst]
      exact StEq_refl _

/-- Bisimulation: the step relation respects `StEq`. -/
theorem StEq_stepLine {s t : PState} (h : StEq s t) (line : List Char) :
    StEq (stepLine s line) (stepLine t line) := by
  obtain ⟨h1, h2, h3, h4, h5, h6, h7, h8⟩ := h
  rcases h8 with h8 | h8
  · have : s = t := PState.ext8 s t h1 h2 h8 h6 h3 h4 h5 h7
    subst this
    exact StEq_refl _
  · cases hs : s.inTable with
    | true =>
      cases ht : t.inTable with
      | true =>
        have : s = t := PState.ext8 s t h1 h2 (hs.trans ht.symm) h6 h3 h4 h5 h7
        subst this
        exact StEq_refl _
      | false =>
        have hset : { t with inTable := true } = s := by
          refine PState.ext8 _ _ h1.symm h2.symm ?_ h6.symm h3.symm h4.symm h5.symm h7.symm
          rw [hs]
        rw [← hset]
        exact stepLine_true_false t line ht (h6 ▸ h8)
    | false =>
      cases ht : t.inTable with
      | false =>
        have : s = t := PState.ext8 s t h1 h2 (hs.trans ht.symm) h6 h3 h4 h5 h7
        subst this
        exact StEq_refl _
      | true =>
        have hset : { s with inTable := true } = t := by
          refine PState.ext8 _ _ h1 h2 ?_ h6 h3 h4 h5 h7
          rw [ht]
        rw [← hset]
        exact StEq_symm (stepLine_true_false s line hs h8)

/-- A state that has not yet seen a heading: no sections, no current
section, no recorded alignments. -/
def DCN (st : PState) : Prop :=
  st.done = [] ∧ st.current = none ∧ st.tableAligns = []

theorem DCN_flushPara {st : PState} (h : DCN st) : DCN (flushPara st) := by
  obtain ⟨hd, hc, ha⟩ := h
  unfold flushPara
  split
  · exact ⟨hd, by rw [hc], ha⟩
  · exact ⟨hd, hc, ha⟩

theorem DCN_flushListG {st : PState} (h : DCN st) : DCN (flushListG st) := by
  obtain ⟨hd, hc, ha⟩ := h
  unfold flushListG
  split
  · exact ⟨hd, by rw [hc], ha⟩
  · exact ⟨hd, hc, ha⟩

theorem DCN_flushListT {st : PState} (h : DCN st) : DCN (flushListT st) := by
  obtain ⟨hd, hc, ha⟩ := h
  exact ⟨hd, by show (match st.current with
    | some s => if st.curList ≠ [] then some (s.addList st.curList) else some s
    | none => none) = none; rw [hc], ha⟩

theorem DCN_flushTableG {st : PState} (h : DCN st) : DCN (flushTableG st) := by
  obtain ⟨hd, hc, ha⟩ := h
  unfold flushTableG
  split
  · exact ⟨hd, by rw [hc], ha⟩
  · exact ⟨hd, hc, ha⟩

theorem DCN_flushTableT {st : PState} (h : DCN st) : DCN (flushTableT st) := by
  obtain ⟨hd, hc, ha⟩ := h
  unfold flushTableT
  split
  · exact ⟨hd, by show (match st.current with
      | some s => if st.curTable ≠ [] then some (s.addTable st.curTable) else some s
      | none => none) = none; rw [hc], ha⟩
  · exact ⟨hd, hc, ha⟩

theorem DCN_recordAlign {st : PState} (h : DCN st) (info : List Align) :
    DCN (recordAlign st info) := by
  obtain ⟨hd, hc, ha⟩ := h
  unfold recordAlign
  cases hcur : st.current with
  | none => exact ⟨hd, hc, ha⟩
  | some s =>
    rw [hc] at hcur
    exact Option.noConfusion hcur

theorem DCN_stepLine {st : PState} (h : DCN st) {line : List Char}
    (h1 : headingMatch line = none) : DCN (stepLine st line) := by
  refine stepLine_preserve DCN line ?_ ?_ ?_ ?_ ?_ ?_ ?_ ?_ ?_ ?_ ?_ ?_ st h
  · exact fun _ h => DCN_flushPara h
  · exact fun _ h => DCN_flushListG h
  · exact fun _ h => DCN_flushListT h
  · exact fun _ h => DCN_flushTableG h
  · exact fun _ h => DCN_flushTableT h
  · intro st2 h2
    obtain ⟨hd, hc, ha⟩ := h2
    unfold openTable
    split
    · exact ⟨hd, hc, ha⟩
    · exact ⟨hd, hc, ha⟩
  · intro st2 h2
    obtain ⟨hd, hc, ha⟩ := h2
    unfold openList
    split
    · exact ⟨hd, hc, ha⟩
    · exact ⟨hd, hc, ha⟩
  · exact fun st2 info h2 => DCN_recordAlign h2 info
  · exact fun st2 lvl text hm _ => absurd (h1 ▸ hm) (by simp)
  · exact fun st2 _ h2 => ⟨h2.1, h2.2.1, h2.2.2⟩
  · exact fun st2 _ h2 => ⟨h2.1, h2.2.1, h2.2.2⟩
  · exact fun st2 i c _ h2 => ⟨h2.1, h2.2.1, h2.2.2⟩

/-- A state reachable from the initial state without any heading line. -/
def PreSt (st : PState) : Prop := DCN st ∧ Inv st

theorem PreSt_initState : PreSt initState :=
  ⟨⟨rfl, rfl, rfl⟩, Inv_initState⟩

theorem PreSt_step {st : PState} (h : PreSt st) {raw : List Char}
    (h1 : headingMatch (rstrip raw) = none) : PreSt (step st raw) :=
  ⟨DCN_stepLine h.1 h1, Inv_stepLine h.2 (rstrip raw)⟩

/-! Component evaluation of the heading branch from a pre-heading state. -/

theorem flushPara_paraLines (st : PState) : (flushPara st).paraLines = [] := by
  unfold flushPara
  split
  · rfl
  · rename_i hcond
    simpa using hcond

theorem flushPara_done (st : PState) : (flushPara st).done = st.done := by
  unfold flushPara
  split
  · rfl
  · rfl

theorem flushPara_aligns (st : PState) : (flushPara st).tableAligns = st.tableAligns := by
  unfold flushPara
  split
  · rfl
  · rfl

theorem flushPara_inList (st : PState) : (flushPara st).inList = st.inList := by
  unfold flushPara
  split
  · rfl
  · rfl

theorem flushPara_curList (st : PState) : (flushPara st).curList = st.curList := by
  unfold flushPara
  split
  · rfl
  · rfl

theorem flushListG_done (st : PState) : (flushListG st).done = st.done := by
  unfold flushListG
  split
  · rfl
  · rfl

theorem flushListG_aligns (st : PState) : (flushListG st).tableAligns = st.tableAligns := by
  unfold flushListG
  split
  · rfl
  · rfl

theorem flushListG_paraLines (st : PState) : (flushListG st).paraLines = st.paraLines := by
  unfold flushListG
  split
  · rfl
  · rfl

theorem flushListG_reset {st : PState} (h : Inv st) :
    (flushListG st).inList = false ∧ (flushListG st).curList = [] := by
  unfold flushListG
  split
  · exact ⟨rfl, rfl⟩
  · rename_i hcond
    by_cases hil : st.inList = true
    · exact absurd ⟨hil, h.2.1 hil⟩ hcond
    · have hf : st.inList = false := by
        revert hil
        cases st.inList <;> simp
      exact ⟨hf, h.1 hf⟩

theorem flushTableG_done (st : PState) : (flushTableG st).done = st.done := by
  unfold flushTableG
  split
  · rfl
  · rfl

theorem flushTableG_aligns (st : PState) :
    (flushTableG st).tableAligns = st.tableAligns := by
  unfold flushTableG
  split
  · rfl
  · rfl

theorem flushTableG_paraLines (st : PState) :
    (flushTableG st).paraLines = st.paraLines := by
  unfold flushTableG
  split
  · rfl
  · rfl

theorem flushTableG_inList (st : PState) : (flushTableG st).inList = st.inList := by
  unfold flushTableG
  split
  · rfl
  · rfl

theorem flushTableG_curList (st : PState) : (flushTableG st).curList = st.curList := by
  unfold flushTableG
  split
  · rfl
  · rfl

theorem flushTableG_curTable {st : PState} (h : Inv st) :
    (flushTableG st).curTable = [] := by
  unfold flushTableG
  split
  · rfl
  · rename_i hcond
    cases hit : st.inTable with
    | false => exact h.2.2 hit
    | true =>
      by_cases hct : st.curTable = []
      · exact hct
      · exact absurd ⟨hit, hct⟩ hcond

theorem flushPara_current_none {st : PState} (h : st.current = none) :
    (flushPara st).current = none := by
  unfold flushPara
  split
  · rw [h]
  · exact h

theorem flushListG_current_none {st : PState} (h : st.current = none) :
    (flushListG st).current = none := by
  unfold flushListG
  split
  · rw [h]
  · exact h

theorem flushTableG_current_none {st : PState} (h : st.current = none) :
    (flushTableG st).current = none := by
  unfold flushTableG
  split
  · rw [h]
  · exact h

/-- From any pre-heading state, a heading line leads to a state that is
fully determined except for the (observationally irrelevant) table flag. -/
theorem heading_step_eval {s : PState} (hd : s.done = []) (hc : s.current = none)
    (ha : s.tableAligns = []) (hInv : Inv s) {line : List Char} {lvl : Nat}
    {text : List Char} (h1 : headingMatch line = some (lvl, text)) :
    stepLine s line = ⟨[], some ⟨text, lvl, [], [], [], []⟩,
      (flushTableG (flushListG (flushPara s))).inTable, [], [], false, [], []⟩ := by
  rw [stepLine_heading _ h1]
  have hInv2 : Inv (flushListG (flushPara s)) := Inv_flushListG (Inv_flushPara hInv)
  refine PState.ext8 _ _ ?_ rfl rfl ?_ ?_ ?_ ?_ ?_
  · show (flushTableG (flushListG (flushPara s))).done ++
      (flushTableG (flushListG (flushPara s))).current.toList = []
    rw [flushTableG_done, flushListG_done, flushPara_done, hd,
      flushTableG_current_none (flushListG_current_none (flushPara_current_none hc))]
    rfl
  · exact flushTableG_curTable hInv2
  · show (flushTableG (flushListG (flushPara s))).paraLines = []
    rw [flushTableG_paraLines, flushListG_paraLines, flushPara_paraLines]
  · show (flushTableG (flushListG (flushPara s))).inList = false
    rw [flushTableG_inList]
    exact (flushListG_reset (Inv_flushPara hInv)).1
  · show (flushTableG (flushListG (flushPara s))).curList = []
    rw [flushTableG_curList]
    exact (flushListG_reset (Inv_flushPara hInv)).2
  · show (flushTableG (flushListG (flushPara s))).tableAligns = []
    rw [flushTableG_aligns, flushListG_aligns, flushPara_aligns, ha]

theorem PreSt_heading_StEq {s t : PState} (hs : PreSt s) (ht : PreSt t)
    {line : List Char} {lvl : Nat} {text : List Char}
    (h1 : headingMatch line = some (lvl, text)) :
    StEq (stepLine s line) (stepLine t line) := by
  rw [heading_step_eval hs.1.1 hs.1.2.1 hs.1.2.2 hs.2 h1,
    heading_step_eval ht.1.1 ht.1.2.1 ht.1.2.2 ht.2 h1]
  exact ⟨rfl, rfl, rfl, rfl, rfl, rfl, rfl, Or.inr rfl⟩

/-- The simulation relation: either the two states are observationally
equal, or both are still pre-heading. -/
def Rel (s t : PState) : Prop := StEq s t ∨ (PreSt s ∧ PreSt t)

theorem Rel_step {s t : PState} (h : Rel s t) (raw : List Char) :
    Rel (step s raw) (step t raw) := by
  cases h with
  | inl hst => exact Or.inl (StEq_stepLine hst (rstrip raw))
  | inr hpre =>
    cases h1 : headingMatch (rstrip raw) with
    | some p =>
      obtain ⟨lvl, text⟩ := p
      exact Or.inl (PreSt_heading_StEq hpre.1 hpre.2 h1)
    | none =>
      exact Or.inr ⟨PreSt_step hpre.1 h1, PreSt_step hpre.2 h1⟩

theorem Rel_foldl (post : List (List Char)) :
    ∀ (s t : PState), Rel s t → Rel (post.foldl step s) (post.foldl step t) := by
  induction post with
  | nil => exact fun s t h => h
  | cons l ls ih =>
    intro s t h
    exact ih (step s l) (step t l) (Rel_step h l)

/-- Generic fold preservation with membership. -/
theorem foldl_pres_mem {σ α : Type} (P : σ → Prop) (f : σ → α → σ) :
    ∀ (l : List α), (∀ st x, x ∈ l → P st → P (f st x)) →
      ∀ st, P st → P (l.foldl f st) := by
  intro l
  induction l with
  | nil => exact fun _ st h => h
  | cons x xs ih =>
    intro hf st h
    exact ih (fun st2 y hy h2 => hf st2 y (List.mem_cons_of_mem _ hy) h2) _
      (hf st x (List.mem_cons_self x xs) h)

theorem StEq_of_setTable (F : PState → PState)
    (hcomm : ∀ st b, F { st with inTable := b } = { F st with inTable := b })
    (hct : ∀ st, (F st).curTable = st.curTable)
    {s t : PState} (h : StEq s t) : StEq (F s) (F t) := by
  obtain ⟨h1, h2, h3, h4, h5, h6, h7, h8⟩ := h
  rcases h8 with h8 | h8
  · have : s = t := PState.ext8 s t h1 h2 h8 h6 h3 h4 h5 h7
    subst this
    exact StEq_refl _
  · have hset : { s with inTable := t.inTable } = t :=
      PState.ext8 _ _ h1 h2 rfl h6 h3 h4 h5 h7
    have hFt : F t = { F s with inTable := t.inTable } :=
      (congrArg F hset).symm.trans (hcomm s t.inTable)
    rw [hFt]
    refine ⟨?_, ?_, ?_, ?_, ?_, ?_, ?_, Or.inr ?_⟩
    · rfl
    · rfl
    · rfl
    · rfl
    · rfl
    · rfl
    · rfl
    · rw [hct]
      exact h8

theorem StEq_finalize {s t : PState} (h : StEq s t) : StEq (finalize s) (finalize t) := by
  unfold finalize
  have h3 := StEq_of_setTable flushListG flushListG_setTable flushListG_curTable
    (StEq_of_setTable flushPara flushPara_setTable flushPara_curTable h)
  obtain ⟨g1, g2, g3, g4, g5, g6, g7, g8⟩ := h3
  rcases g8 with g8 | g8
  · have : flushListG (flushPara s) = flushListG (flushPara t) :=
      PState.ext8 _ _ g1 g2 g8 g6 g3 g4 g5 g7
    rw [this]
    exact StEq_refl _
  · rw [flushTableG_of_curTable_nil g8, flushTableG_of_curTable_nil (g6 ▸ g8)]
    exact ⟨g1, g2, g3, g4, g5, g6, g7, Or.inr g8⟩

theorem DCN_finalize {st : PState} (h : DCN st) : DCN (finalize st) :=
  DCN_flushTableG (DCN_flushListG (DCN_flushPara h))

theorem parse_out_of_Rel {s t : PState} (h : Rel s t) :
    ((finalize s).done ++ (finalize s).current.toList, (finalize s).tableAligns) =
    ((finalize t).done ++ (finalize t).current.toList, (finalize t).tableAligns) := by
  cases h with
  | inl hst =>
    obtain ⟨f1, f2, _, _, _, _, f7, _⟩ := StEq_finalize hst
    rw [f1, f2, f7]
  | inr hpre =>
    obtain ⟨e1, e2, e3⟩ := DCN_finalize hpre.1.1
    obtain ⟨f1, f2, f3⟩ := DCN_finalize hpre.2.1
    rw [e1, e2, e3, f1, f2, f3]

/-- **C7.** Content before the first heading is dropped: prepending any
heading-free prefix to an input never changes the parse result (neither
the sections nor the alignment map); in particular an input with no
heading at all parses to the empty document, and so does the empty
input. -/
theorem C7_content_before_heading_dropped :
    (∀ pre post : List (List Char), (∀ l ∈ pre, headingMatch (rstrip l) = none) →
      parse_markdown (pre ++ post) = parse_markdown post) ∧
    (∀ lines : List (List Char), (∀ l ∈ lines, headingMatch (rstrip l) = none) →
      parse_markdown lines = ([], [])) ∧
    parse_markdown [] = ([], []) := by
  have main : ∀ pre post : List (List Char),
      (∀ l ∈ pre, headingMatch (rstrip l) = none) →
      parse_markdown (pre ++ post) = parse_markdown post := by
    intro pre post hpre
    have hpst : PreSt (pre.foldl step initState) :=
      foldl_pres_mem PreSt step pre
        (fun st l hl h => PreSt_step h (hpre l hl)) initState PreSt_initState
    have hrel : Rel ((pre ++ post).foldl step initState) (post.foldl step initState) := by
      rw [List.foldl_append]
      exact Rel_foldl post _ _ (Or.inr ⟨hpst, PreSt_initState⟩)
    exact parse_out_of_Rel hrel
  refine ⟨main, ?_, rfl⟩
  intro lines hl
  have h2 := main lines [] hl
  rw [List.append_nil] at h2
  exact h2

/-- **C7, witness.** A concrete heading-free prefix (a paragraph line, a
list item and a table row) is dropped: parsing it followed by `'# H'` and
content equals parsing the suffix alone; and a concrete heading-free input
parses to the empty document. -/
theorem C7_content_before_heading_dropped_witness :
    parse_markdown ((["text", "- item", "| a |"].map String.data) ++
        (["# H", "body"].map String.data)) =
      parse_markdown (["# H", "body"].map String.data) ∧
    parse_markdown (["text", "- item", "| a |"].map String.data) = ([], []) :=
  ⟨C7_content_before_heading_dropped.1 (["text", "- item", "| a |"].map String.data)
      (["# H", "body"].map String.data) (by decide),
   C7_content_before_heading_dropped.2.1 (["text", "- item", "| a |"].map String.data)
      (by decide)⟩

/-! ## Claims -/

/-- **C1.** For the input lines `['# Title', 'Some text.', '', '- item one',
'- item two', '', '| A | B |', '|---|--:|', '| x | 1 |']`, `parse_markdown`
produces exactly one section with level 1 and heading `"Title"`, one
paragraph `"Some text."`, one list block with items `(0, "item one")` and
`(0, "item two")`, and one table block with header row `["A", "B"]`,
captured alignment `[left, right]` and data row `["x", "1"]`; the layout
writes the heading at row 1, the paragraph at row 2, the list items at
rows 3 and 4, the table header at row 6 and the data row at row 7, leaving
rows 5 and 8 blank, for 8 rows total (the cursor ends at 9). -/
theorem C1_end_to_end :
    parse_markdown (["# Title", "Some text.", "", "- item one", "- item two", "",
        "| A | B |", "|---|--:|", "| x | 1 |"].map String.data) =
      ([{ heading := "Title".data, level := 1,
          paragraphs := ["Some text.".data],
          lists := [[(0, "item one".data), (0, "item two".data)]],
          tables := [[["A".data, "B".data], ["x".data, "1".data]]],
          blocks := [.para "Some text.".data,
                     .list [(0, "item one".data), (0, "item two".data)],
                     .table [["A".data, "B".data], ["x".data, "1".data]]] }],
       [((0, 0), [.left, .right])]) ∧
    cellWrites (create_excel
        (parse_markdown (["# Title", "Some text.", "", "- item one", "- item two", "",
          "| A | B |", "|---|--:|", "| x | 1 |"].map String.data)).1
        (parse_markdown (["# Title", "Some text.", "", "- item one", "- item two", "",
          "| A | B |", "|---|--:|", "| x | 1 |"].map String.data)).2).instrs =
      [(1, 1, "Title".data), (2, 1, "Some text.".data),
       (3, 1, "• item one".data), (4, 1, "• item two".data),
       (6, 1, "A".data), (6, 2, "B".data), (7, 1, "x".data), (7, 2, "1".data)] ∧
    (create_excel
        (parse_markdown (["# Title", "Some text.", "", "- item one", "- item two", "",
          "| A | B |", "|---|--:|", "| x | 1 |"].map String.data)).1
        (parse_markdown (["# Title", "Some text.", "", "- item one", "- item two", "",
          "| A | B |", "|---|--:|", "| x | 1 |"].map String.data)).2).row = 9 := by
  decide

/-- **C2, counterexample.** The claim asserts that the per-section emission
order (heading, paragraphs, list items, table rows) reproduces the input's
block order for *every* input, including inputs where a table precedes a
paragraph in the same section.  For `['# H', '| a |', '| b |', 'para']`
the table precedes the paragraph in the input, yet the emitted order puts
the paragraph first: the emitted block sequence differs from the parsed
flush-order block sequence. -/
theorem C2_cex_order_not_preserved :
    ((parse_markdown (["# H", "| a |", "| b |", "para"].map String.data)).1.map
        emittedBlocks) ≠
    ((parse_markdown (["# H", "| a |", "| b |", "para"].map String.data)).1.map
        Sect.blocks) := by
  decide

/-- **C3, counterexample.** The claim asserts that a non-blank line failing
the full bullet pattern `^(\s*)[-*+]\s+(.+)$` terminates an open list and
is itself re-considered as ordinary content starting a new paragraph,
explicitly including a line such as `'-foo'`.  On input
`['# H', '- a', '-foo', 'text']` the source instead *consumes* `'-foo'`
(it matches the weaker continuation pattern `^\s*[-*+]` at line 256 and is
dropped by the `continue` at line 265): the list stays open past it, and
the resulting section's paragraphs are `["text"]` — `'-foo'` appears in no
paragraph, contradicting the claim's prediction `["-foo\ntext"]`. -/
theorem C3_cex_bullet_like_line_consumed :
    (parse_markdown (["# H", "- a", "-foo", "text"].map String.data)).1.map
        Sect.paragraphs = [["text".data]] ∧
    (parse_markdown (["# H", "- a", "-foo", "text"].map String.data)).1.map
        Sect.lists = [[[(0, "a".data)]]] := by
  decide

/-- **C4, counterexample.** The claim asserts every `setColumnWidth` after
the very first header-row assignment to a column is a
`max(existing, candidate)` update, so a later table's header row must not
shrink the accumulated width.  For a document with two tables sharing
column 1 — first header `"AAAAAAAAAAAAAAAAAAAA"` (width 26), second header
`"B"` (width 10) — the trace of width writes to column 1 is `[26, 10]`:
the second header-row write (source line 472) unconditionally shrinks the
width, where the claim demands `max(26, 10) = 26`. -/
theorem C4_cex_second_header_shrinks :
    colWidthWrites (create_excel
        [⟨"H".data, 1, [], [],
          [[["AAAAAAAAAAAAAAAAAAAA".data]], [["B".data]]], []⟩] []).instrs 1 =
      [(26, true), (10, true)] ∧
    ¬ ((10 : ℚ) = max 26 10) := by
  decide

/-- **C5, counterexample.** The claim asserts that for every `n ≥ 1` the
column width of `n` CJK characters is strictly larger than that of `n`
ASCII characters, "including small n".  At `n = 1` both raw widths
(4.4 and 3.2) fall below the minimum clamp and the results are equal
(both 10), refuting the strict inequality. -/
theorem C5_cex_small_n_equal :
    ¬ (get_column_width (List.replicate 1 'a') <
        get_column_width (List.replicate 1 'あ')) ∧
    get_column_width (List.replicate 1 'あ') = 10 ∧
    get_column_width (List.replicate 1 'a') = 10 := by
  decide

/-- **C5, amended.** For every `n` with `4 ≤ n ≤ 48`, the column width of a
string of `n` CJK characters is strictly larger than that of a string of
`n` ASCII characters (outside that band the `[10, 60]` clamp makes the two
widths coincide); and `get_column_width` of the empty string returns the
configured minimum 10. -/
theorem C5_amended_cjk_wider_within_clamp_band :
    (∀ n, n ≤ 48 → 4 ≤ n →
      get_column_width (List.replicate n 'a') <
        get_column_width (List.replicate n 'あ')) ∧
    get_column_width [] = 10 := by
  decide

/-- **C5, amended, witness.** Instance of the amended claim at `n = 5`. -/
theorem C5_amended_witness :
    get_column_width (List.replicate 5 'a') < get_column_width (List.replicate 5 'あ') :=
  C5_amended_cjk_wider_within_clamp_band.1 5 (by decide) (by decide)

end MdToExcel
